import Mathlib

/-!
Verification of the customer-tracker core pipeline against its specification.

The development shallowly embeds the relevant Python source:
- `app/visualizer.py` (`Visualizer.side_of_line`, `Visualizer.check_all_lines`),
- `backend/pipeline_runner.py` (`_run_loop`, per-track line-crossing and
  session dispatch),
- `main.py` (`main`, per-track `TrackFrameState` crossing logic),
- `app/utils.py` (`l2_normalize`, `cosine_similarity`),
- `app/session_manager.py` (`SessionManager` and its operations),
- `app/tracker.py` (`SimpleIoUTracker.update` greedy matching).

Modelling conventions:
- Python floats holding wall-clock timestamps and thresholds on timestamps
  are embedded as `ℚ`; `time.time()` is passed explicitly as a `now` argument.
- ReID embedding arithmetic (`numpy` float vectors) is embedded over `ℝ`
  as `List ℝ`; `np.dot` on mismatched 1-D shapes raises `ValueError`,
  embedded as `Except.error`.
- Pixel coordinates are Python `int`s (the `Visualizer` constructor maps
  `int` over all line points), embedded as `ℤ`.  For an integer cross
  product, the source test `abs(cross) < 1e-6` holds exactly when
  `1000000 * |cross| < 1`.
- Python `dict`s are embedded as insertion-ordered association lists:
  assignment to an existing key updates it in place, assignment to a fresh
  key appends at the end, matching CPython iteration order.
-/

namespace CustomerTracker

/-! ### Python dict as insertion-ordered association list -/

/-- `d[k] = v` on a Python dict: update in place if the key exists,
otherwise append at the end (CPython insertion order). -/
def dictSet {κ α : Type} [BEq κ] (k : κ) (v : α) : List (κ × α) → List (κ × α)
  | [] => [(k, v)]
  | (k', v') :: rest =>
    if k == k' then (k, v) :: rest else (k', v') :: dictSet k v rest

/-- In-place mutation of the value stored under key `k` (first occurrence). -/
def updateVal {κ α : Type} [BEq κ] (k : κ) (f : α → α) : List (κ × α) → List (κ × α)
  | [] => []
  | (k', v) :: rest =>
    if k == k' then (k', f v) :: rest else (k', v) :: updateVal k f rest

theorem lookup_updateVal_self {α : Type} (k : ℕ) (f : α → α) :
    ∀ l : List (ℕ × α), List.lookup k (updateVal k f l) = (List.lookup k l).map f := by
  intro l
  induction l with
  | nil => simp [updateVal]
  | cons hd tl ih =>
    obtain ⟨k', v⟩ := hd
    by_cases h : k = k'
    · subst h; simp [updateVal, List.lookup]
    · have hb : (k == k') = false := beq_eq_false_iff_ne.mpr h
      simp [updateVal, List.lookup, hb, ih]

theorem lookup_updateVal_other {α : Type} (k k' : ℕ) (hne : k' ≠ k) (f : α → α) :
    ∀ l : List (ℕ × α), List.lookup k' (updateVal k f l) = List.lookup k' l := by
  intro l
  induction l with
  | nil => simp [updateVal]
  | cons hd tl ih =>
    obtain ⟨k₀, v⟩ := hd
    by_cases h : k = k₀
    · subst h
      have hb : (k' == k) = false := beq_eq_false_iff_ne.mpr hne
      simp [updateVal, List.lookup, hb]
    · have hb : (k == k₀) = false := beq_eq_false_iff_ne.mpr h
      simp [updateVal, List.lookup, hb, ih]

theorem mem_updateVal {α : Type} (k : ℕ) (f : α → α) :
    ∀ (l : List (ℕ × α)) (x : ℕ × α), x ∈ updateVal k f l →
      x ∈ l ∨ ∃ y ∈ l, x = (y.1, f y.2) := by
  intro l
  induction l with
  | nil => intro x hx; simp [updateVal] at hx
  | cons hd tl ih =>
    intro x hx
    obtain ⟨k₀, v⟩ := hd
    simp only [updateVal] at hx
    by_cases h : k = k₀
    · rw [if_pos (by simpa using h)] at hx
      rcases List.mem_cons.mp hx with h1 | h1
      · exact Or.inr ⟨(k₀, v), List.mem_cons_self _ _, h1⟩
      · exact Or.inl (List.mem_cons_of_mem _ h1)
    · rw [if_neg (by simpa using h)] at hx
      rcases List.mem_cons.mp hx with h1 | h1
      · exact Or.inl (h1 ▸ List.mem_cons_self _ _)
      · rcases ih x h1 with h2 | ⟨y, hy, hxy⟩
        · exact Or.inl (List.mem_cons_of_mem _ h2)
        · exact Or.inr ⟨y, List.mem_cons_of_mem _ hy, hxy⟩

theorem mem_dictSet {α : Type} (k : ℕ) (v : α) :
    ∀ (l : List (ℕ × α)) (x : ℕ × α), x ∈ dictSet k v l → x ∈ l ∨ x = (k, v) := by
  intro l
  induction l with
  | nil => intro x hx; simp [dictSet] at hx; exact Or.inr hx
  | cons hd tl ih =>
    intro x hx
    obtain ⟨k₀, v₀⟩ := hd
    simp only [dictSet] at hx
    by_cases h : k = k₀
    · rw [if_pos (by simpa using h)] at hx
      rcases List.mem_cons.mp hx with h1 | h1
      · exact Or.inr h1
      · exact Or.inl (List.mem_cons_of_mem _ h1)
    · rw [if_neg (by simpa using h)] at hx
      rcases List.mem_cons.mp hx with h1 | h1
      · exact Or.inl (h1 ▸ List.mem_cons_self _ _)
      · rcases ih x h1 with h2 | h2
        · exact Or.inl (List.mem_cons_of_mem _ h2)
        · exact Or.inr h2

/-! ### Geometry: `Visualizer.side_of_line` and `check_all_lines`
(`app/visualizer.py`, lines 39–70) -/

/-- A 2-D pixel point (Python `int` coordinates). -/
abbrev Pt : Type := ℤ × ℤ

/-- A directed entry/exit line, an ordered pair of points. -/
abbrev CrossLine : Type := Pt × Pt

/-- `Visualizer.side_of_line`: sign of the 2-D cross product of
`(p2 - p1)` and `(p - p1)`; `0` when the index is out of range or the
cross product is within `1e-6` of zero (for integer inputs, exactly zero). -/
def sideOfLine (lines : List CrossLine) (lineIdx : ℕ) (p : Pt) : ℤ :=
  match lines[lineIdx]? with
  | none => 0
  | some ((x1, y1), (x2, y2)) =>
    let cross := (x2 - x1) * (p.2 - y1) - (y2 - y1) * (p.1 - x1)
    if 1000000 * |cross| < 1 then 0
    else if 0 < cross then 1 else -1

/-- `Visualizer.check_all_lines`: the list of `(line_idx, side)` pairs,
one per configured line, in line order. -/
def checkAllLines (lines : List CrossLine) (p : Pt) : List (ℕ × ℤ) :=
  (List.range lines.length).map (fun idx => (idx, sideOfLine lines idx p))

theorem mem_checkAllLines (lines : List CrossLine) (p : Pt) (idx : ℕ) (s : ℤ)
    (h : (idx, s) ∈ checkAllLines lines p) : s = sideOfLine lines idx p := by
  simp only [checkAllLines, List.mem_map] at h
  obtain ⟨i, _, hi⟩ := h
  obtain ⟨h1, h2⟩ := Prod.mk.injEq .. ▸ hi
  exact h2 ▸ h1 ▸ rfl

/-! ### Crossing detection in `backend/pipeline_runner.py` `_run_loop`
(lines 160–191).

The Python loop over `current_sides` sets `event` and breaks at the first
line whose side transition passes the debounce check; a candidate that
fails the debounce check leaves `event = None` and the loop continues.
The model additionally reports the index of the winning line (the loop
breaks there, so it is well defined); the pipeline step discards it. -/

/-- The `for line_idx, current_side in current_sides` event loop of
`_run_loop`.  `lastDict` is `track_last_side[track_key]`, `lastCross` is
`track_last_cross_ts.get(track_key, 0.0)`, `now` is `time.time()`.
Returns the winning line index and the event string, if any. -/
def findCrossEvent (lastDict : List (ℕ × ℤ)) (lastCross : ℚ) (now : ℚ) :
    List (ℕ × ℤ) → Option (ℕ × String)
  | [] => none
  | (idx, cur) :: rest =>
    let last := (lastDict.lookup idx).getD cur
    if cur ≠ 0 ∧ last ≠ 0 ∧ cur ≠ last then
      if 3/4 ≤ now - lastCross then
        some (idx, if last < cur then "ENTRY" else "EXIT")
      else findCrossEvent lastDict lastCross now rest
    else findCrossEvent lastDict lastCross now rest

/-- One frame of the per-track crossing logic of `_run_loop`: compute all
sides, run the event loop, replace the side memory wholesale with the
freshly computed sides, and advance the debounce timestamp only when an
event fires.  Returns `(event, new side dict, new last-cross timestamp)`. -/
def pipeTrackStep (lines : List CrossLine) (now : ℚ) (pos : Pt)
    (lastDict : List (ℕ × ℤ)) (lastCross : ℚ) :
    Option String × List (ℕ × ℤ) × ℚ :=
  let sides := checkAllLines lines pos
  match findCrossEvent lastDict lastCross now sides with
  | some (_, ev) => (some ev, sides, now)
  | none => (none, sides, lastCross)

/-! ### Crossing detection in `main.py` `main` (lines 97–120). -/

/-- `TrackFrameState` from `main.py`: per-track side memory and debounce
timestamp for the single-line main loop. -/
structure TrackFrameState where
  last_side : Option ℤ := none
  last_cross_time_s : ℚ := 0
  deriving DecidableEq

/-- One frame of the per-track crossing logic of `main.py`'s loop:
`track_state.setdefault(tr.track_id, TrackFrameState(last_side=side))`
followed by the transition/debounce checks and `st.last_side = side`.
`stOpt` is the previous state for the track (`none` on its first frame);
`side` is `vis.side_of_line((cx, cy))`. -/
def mainTrackStep (now : ℚ) (side : ℤ) (stOpt : Option TrackFrameState) :
    Option String × TrackFrameState :=
  let st := match stOpt with
    | some s => s
    | none => { last_side := some side, last_cross_time_s := 0 }
  match st.last_side with
  | none => (none, { st with last_side := some side })
  | some ls =>
    if side ≠ ls ∧ side ≠ 0 ∧ ls ≠ 0 then
      if now - st.last_cross_time_s < 3/4 then
        (none, { last_side := some side, last_cross_time_s := st.last_cross_time_s })
      else
        (some (if ls < side then "ENTRY" else "EXIT"),
         { last_side := some side, last_cross_time_s := now })
    else (none, { st with last_side := some side })

/-- A winning line in the `_run_loop` event loop always has a remembered
side: the lookup default makes `last = cur` for an unremembered line, and
a candidate needs `cur ≠ last`. -/
theorem findCrossEvent_winner_remembered (lastDict : List (ℕ × ℤ))
    (lastCross now : ℚ) :
    ∀ (sides : List (ℕ × ℤ)) (idx : ℕ) (ev : String),
      findCrossEvent lastDict lastCross now sides = some (idx, ev) →
      lastDict.lookup idx ≠ none := by
  intro sides
  induction sides with
  | nil => intro idx ev h; simp [findCrossEvent] at h
  | cons hd rest ih =>
    intro idx ev h
    obtain ⟨i, cur⟩ := hd
    simp only [findCrossEvent] at h
    by_cases hc : cur ≠ 0 ∧ (lastDict.lookup i).getD cur ≠ 0 ∧
        cur ≠ (lastDict.lookup i).getD cur
    · rw [if_pos hc] at h
      by_cases hd2 : (3:ℚ)/4 ≤ now - lastCross
      · rw [if_pos hd2] at h
        obtain ⟨h1, -⟩ := Prod.mk.injEq .. ▸ Option.some.injEq .. ▸ h
        subst h1
        intro hnone
        rw [hnone] at hc
        exact hc.2.2 rfl
      · rw [if_neg hd2] at h
        exact ih idx ev h
    · rw [if_neg hc] at h
      exact ih idx ev h

/-- A winning line's computed side and remembered side are both nonzero
and differ. -/
theorem findCrossEvent_winner_sides (lastDict : List (ℕ × ℤ))
    (lastCross now : ℚ) :
    ∀ (sides : List (ℕ × ℤ)) (idx : ℕ) (ev : String),
      findCrossEvent lastDict lastCross now sides = some (idx, ev) →
      ∃ cur, (idx, cur) ∈ sides ∧ cur ≠ 0 ∧
        (lastDict.lookup idx).getD cur ≠ 0 ∧ cur ≠ (lastDict.lookup idx).getD cur := by
  intro sides
  induction sides with
  | nil => intro idx ev h; simp [findCrossEvent] at h
  | cons hd rest ih =>
    intro idx ev h
    obtain ⟨i, cur⟩ := hd
    simp only [findCrossEvent] at h
    by_cases hc : cur ≠ 0 ∧ (lastDict.lookup i).getD cur ≠ 0 ∧
        cur ≠ (lastDict.lookup i).getD cur
    · rw [if_pos hc] at h
      by_cases hd2 : (3:ℚ)/4 ≤ now - lastCross
      · rw [if_pos hd2] at h
        obtain ⟨h1, -⟩ := Prod.mk.injEq .. ▸ Option.some.injEq .. ▸ h
        subst h1
        exact ⟨cur, List.mem_cons_self _ _, hc⟩
      · rw [if_neg hd2] at h
        obtain ⟨c, hm, hrest⟩ := ih idx ev h
        exact ⟨c, List.mem_cons_of_mem _ hm, hrest⟩
    · rw [if_neg hc] at h
      obtain ⟨c, hm, hrest⟩ := ih idx ev h
      exact ⟨c, List.mem_cons_of_mem _ hm, hrest⟩

/-! ### Embedding arithmetic: `app/utils.py` and `numpy` pieces used by
`SessionManager.assign_identity`.  Vectors are `List ℝ`. -/

/-- The default `eps` of `l2_normalize` (`1e-12`). -/
noncomputable def l2Eps : ℝ := 1 / 1000000000000

/-- Euclidean norm of a 1-D vector, `np.linalg.norm(x)`. -/
noncomputable def l2norm (x : List ℝ) : ℝ :=
  Real.sqrt ((x.map (fun v => v * v)).sum)

/-- `l2_normalize` from `app/utils.py`: divide by `max(norm, eps)`. -/
noncomputable def l2_normalize (x : List ℝ) : List ℝ :=
  let denom := max (l2norm x) l2Eps
  x.map (fun v => v / denom)

/-- Sum of pairwise products of two equal-length 1-D vectors. -/
def dotSum : List ℝ → List ℝ → ℝ
  | [], _ => 0
  | _, [] => 0
  | a :: as, b :: bs => a * b + dotSum as bs

/-- `np.dot` on two 1-D arrays: the inner product when the shapes agree,
a `ValueError` ("shapes not aligned") otherwise. -/
def npDot (a b : List ℝ) : Except String ℝ :=
  if a.length = b.length then .ok (dotSum a b) else .error "shapes not aligned"

/-- `cosine_similarity` from `app/utils.py` is `float(np.dot(a, b))`. -/
def cosine_similarity (a b : List ℝ) : Except String ℝ := npDot a b

/-! ### `app/session_manager.py`: data model -/

/-- `ZoneVisit`: one visit of a person's session to a named zone. -/
structure ZoneVisit where
  zone_name : String
  entry_time : ℚ
  exit_time : Option ℚ := none
  deriving DecidableEq

/-- `Session`: the per-person session record. -/
structure Session where
  session_id : String
  entry_time : Option ℚ := none
  exit_time : Option ℚ := none
  events : List String := []
  last_seen_time : Option ℚ := none
  zone_visits : List ZoneVisit := []
  deriving DecidableEq

/-- `SessionManager` state.  Dicts are insertion-ordered association
lists; the gallery holds `numpy` vectors, embedded over `ℝ`. -/
structure SessionManager where
  thr : ℝ
  next_person_id : ℕ := 1
  next_session_num : ℕ := 1
  person_embedding : List (ℕ × List ℝ) := []
  track_to_person : List (ℕ × ℕ) := []
  sessions : List (ℕ × Session) := []
  person_last_seen : List (ℕ × ℚ) := []
  inactive_timeout : ℚ := 5

/-- `SessionManager.__init__` with a given cosine threshold. -/
def initSM (thr : ℝ) : SessionManager := { thr := thr }

/-- Zero-padded session number, `f"CUST_{n:03d}"`. -/
def sessionIdString (n : ℕ) : String :=
  "CUST_" ++ (if n < 10 then "00" else if n < 100 then "0" else "") ++ toString n

/-! ### Session lifecycle operations.  Each takes `now : ℚ` standing for
the `time.time()` read at the top of the Python method. -/

/-- `SessionManager.on_entry`. -/
def onEntry (now : ℚ) (pid : ℕ) (st : SessionManager) : SessionManager :=
  let st :=
    if (st.sessions.lookup pid).isNone then
      { st with
        sessions :=
          dictSet pid { session_id := sessionIdString st.next_session_num,
                        last_seen_time := some now } st.sessions,
        next_session_num := st.next_session_num + 1 }
    else st
  { st with
    sessions :=
      updateVal pid (fun s =>
        let s := if s.entry_time = none then { s with entry_time := some now } else s
        { s with last_seen_time := some now, events := s.events ++ ["ENTRY"] })
        st.sessions }

/-- `SessionManager.on_exit`. -/
def onExit (now : ℚ) (pid : ℕ) (st : SessionManager) : SessionManager :=
  if (st.sessions.lookup pid).isNone then st
  else
    { st with
      sessions :=
        updateVal pid (fun s =>
          let s := if s.exit_time = none then { s with exit_time := some now } else s
          { s with events := s.events ++ ["EXIT"] })
          st.sessions }

/-- `SessionManager.get_session_id`: returns the session id if a session
exists, refreshing `last_seen_time` (and `entry_time` if unset) as a side
effect; returns `None` and leaves the state untouched otherwise. -/
def getSessionId (now : ℚ) (pid : ℕ) (st : SessionManager) :
    Option String × SessionManager :=
  match st.sessions.lookup pid with
  | none => (none, st)
  | some s =>
    (some s.session_id,
     { st with
       sessions :=
         updateVal pid (fun s =>
           let s := if s.entry_time = none then { s with entry_time := some now } else s
           { s with last_seen_time := some now })
           st.sessions })

/-- Python's `a or b` on two optional floats: `b` when `a` is `None` or
`0.0` (falsy), `a` otherwise. -/
def pyOr (a b : Option ℚ) : Option ℚ :=
  match a with
  | some v => if v ≠ 0 then some v else b
  | none => b

/-- Body of the `mark_inactive_if_not_seen` loop for one session `s` of
person `pid`: `lastSeenOpt` is `self._person_last_seen.get(pid)`. -/
def autoCloseSession (now timeout : ℚ) (lastSeenOpt : Option ℚ) (s : Session) :
    Session :=
  if s.exit_time = none then
    let last_seen :=
      match lastSeenOpt with
      | some t => some t
      | none => pyOr s.entry_time s.last_seen_time
    match last_seen with
    | some t =>
      if timeout < now - t then
        { s with exit_time := some t, events := s.events ++ ["AUTO_EXIT"] }
      else s
    | none => s
  else s

/-- `SessionManager.mark_inactive_if_not_seen`. -/
def markInactiveIfNotSeen (now : ℚ) (st : SessionManager) : SessionManager :=
  { st with
    sessions :=
      st.sessions.map (fun e =>
        (e.1, autoCloseSession now st.inactive_timeout
          (st.person_last_seen.lookup e.1) e.2)) }

/-- `SessionManager.active_sessions`: run the inactivity sweep, then keep
sessions with `entry_time` set, `exit_time` unset, and a last-seen time
within the timeout (or no last-seen time at all). -/
def activeSessions (now : ℚ) (st : SessionManager) :
    List (ℕ × Session) × SessionManager :=
  let st := markInactiveIfNotSeen now st
  (st.sessions.filter (fun e =>
      decide (e.2.entry_time ≠ none) && decide (e.2.exit_time = none) &&
        match pyOr (st.person_last_seen.lookup e.1) e.2.last_seen_time with
        | some t => decide (now - t ≤ st.inactive_timeout)
        | none => true),
   st)

/-! ### Zone visit operations -/

/-- The scan `for zv in s.zone_visits: if zv.zone_name == zone_name and
zv.exit_time is None` in `on_zone_entry`. -/
def hasOpenVisit (z : String) (l : List ZoneVisit) : Bool :=
  l.any (fun zv => zv.zone_name = z ∧ zv.exit_time = none)

/-- `SessionManager.on_zone_entry`. -/
def onZoneEntry (now : ℚ) (pid : ℕ) (z : String) (st : SessionManager) :
    SessionManager :=
  match st.sessions.lookup pid with
  | none => st
  | some s =>
    if hasOpenVisit z s.zone_visits then st
    else
      { st with
        sessions :=
          updateVal pid (fun s =>
            { s with zone_visits := s.zone_visits ++ [{ zone_name := z, entry_time := now }] })
            st.sessions }

/-- Close the first open visit to zone `z` in the given scan order
(`on_zone_exit` scans `reversed(s.zone_visits)`). -/
def closeFirstOpen (z : String) (now : ℚ) : List ZoneVisit → List ZoneVisit
  | [] => []
  | zv :: rest =>
    if zv.zone_name = z ∧ zv.exit_time = none then
      { zv with exit_time := some now } :: rest
    else zv :: closeFirstOpen z now rest

/-- `SessionManager.on_zone_exit`. -/
def onZoneExit (now : ℚ) (pid : ℕ) (z : String) (st : SessionManager) :
    SessionManager :=
  match st.sessions.lookup pid with
  | none => st
  | some _ =>
    { st with
      sessions :=
        updateVal pid (fun s =>
          { s with zone_visits := (closeFirstOpen z now s.zone_visits.reverse).reverse })
          st.sessions }

/-! ### Identity resolution: `SessionManager.assign_identity` and helpers -/

/-- `SessionManager._create_person`: allocate the next sequential person
id and store the (re-)normalized embedding as its gallery vector. -/
noncomputable def createPerson (emb : List ℝ) (st : SessionManager) :
    ℕ × SessionManager :=
  (st.next_person_id,
   { st with
     next_person_id := st.next_person_id + 1,
     person_embedding := dictSet st.next_person_id (l2_normalize emb) st.person_embedding })

/-- `SessionManager._update_gallery`: blend the gallery vector with the
normalized incoming embedding (`0.8 * g + 0.2 * l2_normalize(emb)`) and
re-normalize.  `numpy` elementwise arithmetic on two 1-D vectors of
different lengths raises (broadcasting of a length-1 operand is not
exercised by any claim and is folded into the error case). -/
noncomputable def updateGallery (pid : ℕ) (emb : List ℝ) (st : SessionManager) :
    Except String SessionManager :=
  match st.person_embedding.lookup pid with
  | none =>
    .ok { st with person_embedding := dictSet pid (l2_normalize emb) st.person_embedding }
  | some g =>
    let ne := l2_normalize emb
    if g.length = ne.length then
      .ok { st with
            person_embedding :=
              dictSet pid
                (l2_normalize (List.zipWith (fun a b => 0.8 * a + 0.2 * b) g ne))
                st.person_embedding }
    else .error "operands could not be broadcast together"

/-- The gallery scan of `assign_identity` (lines 112–118): running
arg-max of the cosine similarity, starting from `best_pid = None`,
`best_sim = -1.0`; an exception from `np.dot` aborts the scan. -/
noncomputable def bestMatch (emb : List ℝ) :
    List (ℕ × List ℝ) → Option ℕ → ℝ → Except String (Option ℕ × ℝ)
  | [], bp, bs => .ok (bp, bs)
  | (pid, g) :: rest, bp, bs =>
    match cosine_similarity emb g with
    | .error e => .error e
    | .ok sim =>
      if bs < sim then bestMatch emb rest (some pid) sim
      else bestMatch emb rest bp bs

/-- `SessionManager.assign_identity`.  Returns the global person id and
the updated state, or the propagated `numpy` error. -/
noncomputable def assignIdentity (now : ℚ) (trackId : ℕ) (embedding : List ℝ)
    (st : SessionManager) : Except String (ℕ × SessionManager) :=
  match st.track_to_person.lookup trackId with
  | some pid =>
    match updateGallery pid embedding st with
    | .error e => .error e
    | .ok st =>
      let st := { st with person_last_seen := dictSet pid now st.person_last_seen }
      let st :=
        if (st.sessions.lookup pid).isSome then
          { st with
            sessions := updateVal pid (fun s => { s with last_seen_time := some now })
              st.sessions }
        else st
      .ok (pid, st)
  | none =>
    let emb := l2_normalize embedding
    if st.person_embedding.length = 0 then
      let (pid, st) := createPerson emb st
      .ok (pid, { st with track_to_person := dictSet trackId pid st.track_to_person })
    else
      match bestMatch emb st.person_embedding none (-1) with
      | .error e => .error e
      | .ok (bestPid, bestSim) =>
        match bestPid with
        | some bp =>
          if st.thr ≤ bestSim then
            match updateGallery bp emb st with
            | .error e => .error e
            | .ok st =>
              .ok (bp, { st with track_to_person := dictSet trackId bp st.track_to_person })
          else
            let (pid, st) := createPerson emb st
            .ok (pid,
              { st with
                track_to_person := dictSet trackId pid st.track_to_person,
                person_last_seen := dictSet pid now st.person_last_seen })
        | none =>
          let (pid, st) := createPerson emb st
          .ok (pid,
            { st with
              track_to_person := dictSet trackId pid st.track_to_person,
              person_last_seen := dictSet pid now st.person_last_seen })

/-! ### `app/tracker.py`: greedy IoU matching inside
`SimpleIoUTracker.update` (lines 74–105) -/

/-- An axis-aligned box `(x1, y1, x2, y2)` in integer pixels. -/
abbrev Box : Type := ℤ × ℤ × ℤ × ℤ

/-- `_iou_xyxy` over exact rationals. -/
def iouXYXY (a b : Box) : ℚ :=
  let (ax1, ay1, ax2, ay2) := a
  let (bx1, by1, bx2, by2) := b
  let x1 := max ax1 bx1
  let y1 := max ay1 by1
  let x2 := min ax2 bx2
  let y2 := min ay2 by2
  let iw := max 0 (x2 - x1)
  let ih := max 0 (y2 - y1)
  let inter := iw * ih
  if inter ≤ 0 then 0
  else
    let areaA := max 0 (ax2 - ax1) * max 0 (ay2 - ay1)
    let areaB := max 0 (bx2 - bx1) * max 0 (by2 - by1)
    let union := areaA + areaB - inter
    if 0 < union then (inter : ℚ) / (union : ℚ) else 0

/-- All `(track_id, det_index, IoU)` pairs, tracks in table order and
detections in list order. -/
def buildPairs (tracks : List (ℕ × Box)) (dets : List Box) : List (ℕ × ℕ × ℚ) :=
  tracks.flatMap (fun tb => dets.enum.map (fun db => (tb.1, db.1, iouXYXY tb.2 db.2)))

/-- The greedy loop of `update`: walk the IoU-sorted pairs, stop at the
first pair below the threshold (the list is sorted descending, so the
Python `break`), skip pairs whose track or detection is already taken,
and accept the rest.  Accumulates matched track ids, used detection
indices, and accepted `(track, det)` pairs. -/
def greedyMatch (thr : ℚ) :
    List (ℕ × ℕ × ℚ) → List ℕ → List ℕ → List (ℕ × ℕ) →
      List (ℕ × ℕ) × List ℕ
  | [], _, used, acc => (acc.reverse, used)
  | (tid, di, iou) :: rest, mt, used, acc =>
    if iou < thr then (acc.reverse, used)
    else if tid ∈ mt ∨ di ∈ used then greedyMatch thr rest mt used acc
    else greedyMatch thr rest (tid :: mt) (di :: used) ((tid, di) :: acc)

/-- The full track/detection assignment of one `update` call: greedy
matches over the IoU-sorted pair list, then a fresh sequential track id
for every detection left unused. -/
def trackerAssignments (thr : ℚ) (tracks : List (ℕ × Box)) (nextId : ℕ)
    (dets : List Box) : List (ℕ × ℕ) :=
  let pairs := (buildPairs tracks dets).mergeSort (fun a b => decide (b.2.2 ≤ a.2.2))
  let gm := greedyMatch thr pairs [] [] []
  let unmatched := (List.range dets.length).filter (fun di => decide (¬ di ∈ gm.2))
  gm.1 ++ unmatched.enum.map (fun kd => (nextId + kd.1, kd.2))

/-! ### Per-frame composition of `_run_loop` for a single track
(crossing detection, session dispatch, `get_session_id`, and the
frame-end inactivity sweep / `active_sessions` call in `draw`). -/

/-- The pipeline state owned by `_run_loop` that the claims exercise:
`track_last_side`, `track_last_cross_ts`, and the `SessionManager`. -/
structure PipeState where
  trackLastSide : List (ℕ × List (ℕ × ℤ)) := []
  trackLastCross : List (ℕ × ℚ) := []
  sm : SessionManager

/-- Lines 160–215 of `_run_loop` for one track: crossing detection with
side-memory update, `on_entry`/`on_exit` dispatch, and the
`get_session_id` read (which itself refreshes the session). -/
def pipeProcessTrack (lines : List CrossLine) (now : ℚ) (tid pid : ℕ)
    (pos : Pt) (ps : PipeState) : Option String × PipeState :=
  let lastDict := (ps.trackLastSide.lookup tid).getD []
  let lastCross := (ps.trackLastCross.lookup tid).getD 0
  let r := pipeTrackStep lines now pos lastDict lastCross
  let ev := r.1
  let ps :=
    { ps with
      trackLastSide := dictSet tid r.2.1 ps.trackLastSide,
      trackLastCross :=
        if ev.isSome then dictSet tid r.2.2 ps.trackLastCross else ps.trackLastCross }
  let sm :=
    match ev with
    | some "ENTRY" => onEntry now pid ps.sm
    | some "EXIT" => onExit now pid ps.sm
    | _ => ps.sm
  let sm := (getSessionId now pid sm).2
  (ev, { ps with sm := sm })

/-- Process a list of timestamped centroid samples for one track, each
frame ending with `mark_inactive_if_not_seen()` and the
`active_sessions()` sweep performed for `draw` (lines 222–224).
Returns the per-frame events and the final state. -/
def pipeRunFrames (lines : List CrossLine) (tid pid : ℕ) :
    List (ℚ × Pt) → PipeState → List (Option String) × PipeState
  | [], ps => ([], ps)
  | (now, pos) :: rest, ps =>
    let r := pipeProcessTrack lines now tid pid pos ps
    let ps' :=
      { r.2 with
        sm := (activeSessions now (markInactiveIfNotSeen now r.2.sm)).2 }
    let rr := pipeRunFrames lines tid pid rest ps'
    (r.1 :: rr.1, rr.2)

/-- The C1 scenario: one horizontal line from (0,100) to (200,100), one
track sampled at y=50 (t=1), then y=150 (t=2), then y=150 again (t=3). -/
noncomputable def c1Run : List (Option String) × PipeState :=
  pipeRunFrames [((0, 100), (200, 100))] 1 1
    [(1, (100, 50)), (2, (100, 150)), (3, (100, 150))]
    { sm := initSM (62 / 100) }

/-- The session record produced by the C1 crossing at t=2. -/
def c1S1 : Session :=
  { session_id := sessionIdString 1, entry_time := some 2, exit_time := none,
    events := ["ENTRY"], last_seen_time := some 2, zone_visits := [] }

/-- The C1 session after the t=3 frame refreshed `last_seen_time`. -/
def c1S2 : Session := { c1S1 with last_seen_time := some 3 }

/-- The C1 session-manager state right after the ENTRY at t=2. -/
noncomputable def c1SM1 : SessionManager :=
  { initSM (62 / 100) with next_session_num := 2, sessions := [(1, c1S1)] }

/-- The C1 session-manager state after the t=3 frame. -/
noncomputable def c1SM2 : SessionManager :=
  { initSM (62 / 100) with next_session_num := 2, sessions := [(1, c1S2)] }

theorem range_one : List.range 1 = [0] := rfl

/-- C1: for a single horizontal line from (0,100) to (200,100) and a
track sampled at y=50 (side −1) and later at y=150 (side +1), with more
than 0.75 s since the track's last emitted event, exactly one ENTRY
event fires for that crossing, and the person's session becomes active:
`entry_time` is set and the session appears in `active_sessions()`. -/
theorem c1_single_entry_and_active_session :
    c1Run.1 = [none, some "ENTRY", none] ∧
    c1Run.2.sm.sessions.lookup 1 = some c1S2 ∧
    (activeSessions 3 c1Run.2.sm).1.map Prod.fst = [1] := by
  have e1 : pipeProcessTrack [((0, 100), (200, 100))] 1 1 1 (100, 50)
      { trackLastSide := [], trackLastCross := [], sm := initSM (62 / 100) } =
      (none, { trackLastSide := [(1, [(0, -1)])], trackLastCross := [],
               sm := initSM (62 / 100) }) := by
    norm_num [pipeProcessTrack, pipeTrackStep, findCrossEvent, checkAllLines,
      sideOfLine, getSessionId, dictSet, initSM, List.lookup, range_one] <;> simp
  have w1 : (activeSessions 1 (markInactiveIfNotSeen 1 (initSM (62 / 100)))).2 =
      initSM (62 / 100) := by
    norm_num [activeSessions, markInactiveIfNotSeen, initSM] <;> simp
  have e2 : pipeProcessTrack [((0, 100), (200, 100))] 2 1 1 (100, 150)
      { trackLastSide := [(1, [(0, -1)])], trackLastCross := [],
        sm := initSM (62 / 100) } =
      (some "ENTRY",
       { trackLastSide := [(1, [(0, 1)])], trackLastCross := [(1, 2)], sm := c1SM1 }) := by
    norm_num [pipeProcessTrack, pipeTrackStep, findCrossEvent, checkAllLines,
      sideOfLine, getSessionId, onEntry, dictSet, updateVal, initSM, List.lookup,
      c1S1, c1SM1, range_one] <;> simp
  have w2 : (activeSessions 2 (markInactiveIfNotSeen 2 c1SM1)).2 = c1SM1 := by
    norm_num [activeSessions, markInactiveIfNotSeen, autoCloseSession, pyOr,
      initSM, c1S1, c1SM1, List.lookup] <;> simp
  have e3 : pipeProcessTrack [((0, 100), (200, 100))] 3 1 1 (100, 150)
      { trackLastSide := [(1, [(0, 1)])], trackLastCross := [(1, 2)], sm := c1SM1 } =
      (none,
       { trackLastSide := [(1, [(0, 1)])], trackLastCross := [(1, 2)], sm := c1SM2 }) := by
    norm_num [pipeProcessTrack, pipeTrackStep, findCrossEvent, checkAllLines,
      sideOfLine, getSessionId, dictSet, updateVal, initSM, List.lookup, c1S1, c1S2,
      c1SM1, c1SM2, range_one] <;> simp [c1S1, c1S2]
  have w3 : (activeSessions 3 (markInactiveIfNotSeen 3 c1SM2)).2 = c1SM2 := by
    norm_num [activeSessions, markInactiveIfNotSeen, autoCloseSession, pyOr,
      initSM, c1S1, c1S2, c1SM2, List.lookup] <;> simp
  have hrun : c1Run =
      ([none, some "ENTRY", none],
       { trackLastSide := [(1, [(0, 1)])], trackLastCross := [(1, 2)], sm := c1SM2 }) := by
    simp only [c1Run, pipeRunFrames, e1, w1, e2, w2, e3, w3]
  refine ⟨by rw [hrun], by rw [hrun]; norm_num [List.lookup, c1SM2, initSM] <;> simp, ?_⟩
  rw [hrun]
  norm_num [activeSessions, markInactiveIfNotSeen, autoCloseSession, pyOr,
    initSM, c1S1, c1S2, c1SM2, List.lookup, List.filter] <;> simp [c1S1, c1S2]

/-! ### Association-list lookup lemmas used by several claims -/

theorem lookup_append {β : Type} (k : ℕ) :
    ∀ l₁ l₂ : List (ℕ × β), List.lookup k (l₁ ++ l₂) =
      match List.lookup k l₁ with
      | some v => some v
      | none => List.lookup k l₂ := by
  intro l₁ l₂
  induction l₁ with
  | nil => simp [List.lookup]
  | cons hd tl ih =>
    obtain ⟨k', v⟩ := hd
    by_cases h : k = k'
    · subst h; simp [List.lookup]
    · have hb : (k == k') = false := beq_eq_false_iff_ne.mpr h
      simp [List.lookup, hb, ih]

theorem lookup_range_map_none {β : Type} (f : ℕ → β) :
    ∀ (n idx : ℕ), n ≤ idx →
      List.lookup idx ((List.range n).map (fun i => (i, f i))) = none := by
  intro n
  induction n with
  | zero => intro idx _; simp
  | succ n ih =>
    intro idx h
    rw [List.range_succ, List.map_append, lookup_append]
    have h1 := ih idx (le_trans (Nat.le_succ n) h)
    rw [h1]
    have hb : (idx == n) = false :=
      beq_eq_false_iff_ne.mpr (fun he => absurd (he ▸ h) (Nat.not_succ_le_self n))
    simp [List.lookup, hb]

theorem lookup_range_map {β : Type} (f : ℕ → β) :
    ∀ (n idx : ℕ), idx < n →
      List.lookup idx ((List.range n).map (fun i => (i, f i))) = some (f idx) := by
  intro n
  induction n with
  | zero => intro idx h; exact absurd h (Nat.not_lt_zero idx)
  | succ n ih =>
    intro idx h
    rw [List.range_succ, List.map_append, lookup_append]
    by_cases hlt : idx < n
    · rw [ih idx hlt]
    · have he : idx = n := Nat.le_antisymm (Nat.lt_succ_iff.mp h) (Nat.le_of_not_lt hlt)
      subst he
      rw [lookup_range_map_none f idx idx (le_refl idx)]
      simp [List.lookup]

theorem lookup_mapVal {α β : Type} (g : ℕ → α → β) (k : ℕ) :
    ∀ l : List (ℕ × α),
      List.lookup k (l.map (fun e => (e.1, g e.1 e.2))) = (List.lookup k l).map (g k) := by
  intro l
  induction l with
  | nil => simp
  | cons hd tl ih =>
    obtain ⟨k', v⟩ := hd
    by_cases h : k = k'
    · subst h; simp [List.lookup]
    · have hb : (k == k') = false := beq_eq_false_iff_ne.mpr h
      simp [List.lookup, hb, ih]

/-! ### C8: degenerate lines -/

/-- C8: `side_of_line` is total and returns side 0 for every point of a
degenerate (zero-length) line, so the event loop never emits a crossing
event attributed to a degenerate line: an event needs two nonzero sides
that differ. -/
theorem c8_degenerate_line_yields_side_zero_and_no_event
    (lines : List CrossLine) (idx : ℕ) (q : Pt) (hdeg : lines[idx]? = some (q, q))
    (p pos : Pt) (lastDict : List (ℕ × ℤ)) (lastCross now : ℚ) :
    sideOfLine lines idx p = 0 ∧
    (∀ (i : ℕ) (ev : String),
      findCrossEvent lastDict lastCross now (checkAllLines lines pos) = some (i, ev) →
      i ≠ idx) := by
  have hside : ∀ r : Pt, sideOfLine lines idx r = 0 := by
    intro r
    simp only [sideOfLine, hdeg]
    obtain ⟨qx, qy⟩ := q
    norm_num
  refine ⟨hside p, ?_⟩
  intro i ev h hcontra
  subst hcontra
  obtain ⟨cur, hmem, hcur, -, -⟩ :=
    findCrossEvent_winner_sides lastDict lastCross now (checkAllLines lines pos) i ev h
  exact hcur ((mem_checkAllLines lines pos i cur hmem).trans (hside pos))

/-- Witness for C8 at a concrete degenerate line. -/
theorem c8_witness :
    sideOfLine [((5, 5), (5, 5))] 0 (3, 7) = 0 ∧
    (∀ (i : ℕ) (ev : String),
      findCrossEvent [(0, 1)] 0 10 (checkAllLines [((5, 5), (5, 5))] (2, 9)) = some (i, ev) →
      i ≠ 0) :=
  c8_degenerate_line_yields_side_zero_and_no_event
    [((5, 5), (5, 5))] 0 (5, 5) rfl (3, 7) (2, 9) [(0, 1)] 0 10

/-! ### C10: first observation of a line for a track cannot emit an event -/

/-- C10: a crossing event requires an earlier remembered side.  In the
pipeline runner, a line with no remembered side defaults its last side to
the current one, so the winning line of the event loop always has an
entry in the side-memory dict; on a track's very first frame the dict is
empty, so no event fires; in the `main.py` loop, a track's first state is
created with `last_side = side`, so its first frame fires no event. -/
theorem c10_first_frame_no_event :
    (∀ (lastDict : List (ℕ × ℤ)) (lastCross now : ℚ) (sides : List (ℕ × ℤ))
        (i : ℕ) (ev : String),
      findCrossEvent lastDict lastCross now sides = some (i, ev) →
      lastDict.lookup i ≠ none) ∧
    (∀ (lines : List CrossLine) (now : ℚ) (pos : Pt) (lastCross : ℚ),
      (pipeTrackStep lines now pos [] lastCross).1 = none) ∧
    (∀ (now : ℚ) (side : ℤ), (mainTrackStep now side none).1 = none) := by
  refine ⟨?_, ?_, ?_⟩
  · intro lastDict lastCross now sides i ev h
    exact findCrossEvent_winner_remembered lastDict lastCross now sides i ev h
  · intro lines now pos lastCross
    cases h : findCrossEvent [] lastCross now (checkAllLines lines pos) with
    | none => simp [pipeTrackStep, h]
    | some x =>
      obtain ⟨i, ev⟩ := x
      exact absurd rfl
        (findCrossEvent_winner_remembered [] lastCross now (checkAllLines lines pos) i ev h)
  · intro now side
    simp [mainTrackStep]

/-- Witness for C10: a concrete winning line has a remembered side, and
concrete first frames emit no event. -/
theorem c10_witness :
    ([((0 : ℕ), (-1 : ℤ))].lookup 0 ≠ none) ∧
    (pipeTrackStep [((0, 100), (200, 100))] 5 (100, 50) [] 0).1 = none ∧
    (mainTrackStep 5 1 none).1 = none := by
  refine ⟨?_, c10_first_frame_no_event.2.1 [((0, 100), (200, 100))] 5 (100, 50) 0,
    c10_first_frame_no_event.2.2 5 1⟩
  apply c10_first_frame_no_event.1 [((0, (-1 : ℤ)))] 0 10 [(0, 1)] 0 "ENTRY"
  norm_num [findCrossEvent, List.lookup]

/-! ### C2: what happens to side memory on an on-line frame -/

/-- C2 scenario, frame 1: track at y=50 (side −1), empty side memory. -/
def c2Step1 : Option String × List (ℕ × ℤ) × ℚ :=
  pipeTrackStep [((0, 100), (200, 100))] 1 (100, 50) [] 0

/-- C2 scenario, frame 2: track exactly on the line at y=100 (side 0). -/
def c2Step2 : Option String × List (ℕ × ℤ) × ℚ :=
  pipeTrackStep [((0, 100), (200, 100))] 2 (100, 100) c2Step1.2.1 c2Step1.2.2

/-- C2 scenario, frame 3: track at y=150 (side +1). -/
def c2Step3 : Option String × List (ℕ × ℤ) × ℚ :=
  pipeTrackStep [((0, 100), (200, 100))] 3 (100, 150) c2Step2.2.1 c2Step2.2.2

/-- Counterexample to C2: after the on-line frame the remembered side for
the (track, line) pair is 0, not the previously remembered −1, and the
crossing whose samples straddle the on-line frame (−1, 0, +1) emits no
event on any of the three frames. -/
theorem c2_counterexample :
    c2Step2.2.1.lookup 0 = some 0 ∧
    ¬ c2Step2.2.1.lookup 0 = some (-1) ∧
    c2Step1.1 = none ∧ c2Step2.1 = none ∧ c2Step3.1 = none := by
  refine ⟨?_, ?_, ?_, ?_, ?_⟩ <;>
    norm_num [c2Step1, c2Step2, c2Step3, pipeTrackStep, findCrossEvent, checkAllLines,
      sideOfLine, range_one, List.lookup]

/-- C2 as amended: each processed frame overwrites the per-(track, line)
remembered side with the side computed on that frame — including side 0
for an on-line sample, which erases the remembered nonzero side — in both
the pipeline runner (the side dict is rebuilt from `current_sides`) and
the main loop (`st.last_side = side` unconditionally). -/
theorem c2_side_memory_overwritten_each_frame
    (lines : List CrossLine) (now : ℚ) (pos : Pt)
    (lastDict : List (ℕ × ℤ)) (lastCross : ℚ) (idx : ℕ) (hidx : idx < lines.length) :
    (pipeTrackStep lines now pos lastDict lastCross).2.1.lookup idx =
      some (sideOfLine lines idx pos) ∧
    (∀ (st : TrackFrameState) (now' : ℚ) (side : ℤ),
      (mainTrackStep now' side (some st)).2.last_side = some side) := by
  constructor
  · have hlk : (checkAllLines lines pos).lookup idx = some (sideOfLine lines idx pos) :=
      lookup_range_map (fun i => sideOfLine lines i pos) lines.length idx hidx
    cases h : findCrossEvent lastDict lastCross now (checkAllLines lines pos) with
    | none => simpa [pipeTrackStep, h] using hlk
    | some x =>
      obtain ⟨i, ev⟩ := x
      simpa [pipeTrackStep, h] using hlk
  · intro st now' side
    obtain ⟨lsOpt, lc⟩ := st
    cases lsOpt with
    | none => rfl
    | some ls =>
      simp only [mainTrackStep]
      split_ifs <;> rfl

/-- Witness for the amended C2 at a concrete on-line sample. -/
theorem c2_amended_witness :
    (pipeTrackStep [((0, 100), (200, 100))] 2 (100, 100) [(0, -1)] 0).2.1.lookup 0 =
      some (sideOfLine [((0, 100), (200, 100))] 0 (100, 100)) ∧
    (∀ (st : TrackFrameState) (now' : ℚ) (side : ℤ),
      (mainTrackStep now' side (some st)).2.last_side = some side) :=
  c2_side_memory_overwritten_each_frame [((0, 100), (200, 100))] 2 (100, 100)
    [(0, -1)] 0 0 (by norm_num)

/-! ### C9: `get_session_id` is a refreshing read -/

/-- C9: `get_session_id` is not a pure lookup.  With no session for the
person it returns `None` and leaves the state unchanged; with a session
it returns the session id and, as a side effect, sets that session's
`last_seen_time` to the current time (and `entry_time`, if still unset),
leaving every other session binding untouched. -/
theorem c9_get_session_id_refreshes
    (now : ℚ) (pid : ℕ) (st : SessionManager) (s : Session) :
    (st.sessions.lookup pid = none → getSessionId now pid st = (none, st)) ∧
    (st.sessions.lookup pid = some s →
      (getSessionId now pid st).1 = some s.session_id ∧
      (getSessionId now pid st).2.sessions.lookup pid =
        some { s with
               entry_time := if s.entry_time = none then some now else s.entry_time,
               last_seen_time := some now } ∧
      (∀ pid' : ℕ, pid' ≠ pid →
        (getSessionId now pid st).2.sessions.lookup pid' = st.sessions.lookup pid') ∧
      (getSessionId now pid st).2.person_last_seen = st.person_last_seen) := by
  constructor
  · intro h
    simp [getSessionId, h]
  · intro h
    refine ⟨by simp [getSessionId, h], ?_, ?_, by simp [getSessionId, h]⟩
    · simp only [getSessionId, h]
      rw [lookup_updateVal_self, h]
      by_cases he : s.entry_time = none <;> simp [he]
    · intro pid' hne
      simp only [getSessionId, h]
      exact lookup_updateVal_other pid pid' hne _ st.sessions

/-- A concrete session-manager state for the C9 witness: one session for
person 1 that has not yet crossed an entry line. -/
noncomputable def c9W : SessionManager :=
  { thr := 62 / 100,
    sessions := [(1, { session_id := "CUST_001" })] }

/-- Witness for C9: person 3 has no session (pure `None`), person 1 has
one, whose `entry_time` and `last_seen_time` get set to the call time. -/
theorem c9_witness :
    getSessionId 5 3 (initSM (62 / 100)) = (none, initSM (62 / 100)) ∧
    (getSessionId 8 1 c9W).1 = some "CUST_001" ∧
    (getSessionId 8 1 c9W).2.sessions.lookup 1 =
      some { session_id := "CUST_001", entry_time := some 8, exit_time := none,
             events := [], last_seen_time := some 8, zone_visits := [] } := by
  refine ⟨(c9_get_session_id_refreshes 5 3 (initSM (62 / 100))
      { session_id := "X" }).1 rfl, ?_, ?_⟩
  · exact ((c9_get_session_id_refreshes 8 1 c9W { session_id := "CUST_001" }).2 rfl).1
  · have h := ((c9_get_session_id_refreshes 8 1 c9W { session_id := "CUST_001" }).2 rfl).2.1
    simpa using h

/-! ### C5: the inactivity sweep -/

/-- C5: for every open session whose person's last-seen timestamp lies
more than the inactivity timeout in the past, `mark_inactive_if_not_seen`
sets `exit_time` to that last-seen timestamp (not the current time) and
appends `"AUTO_EXIT"`; sessions whose `exit_time` is already set are left
unchanged. -/
theorem lookup_markInactive (now : ℚ) (st : SessionManager) (pid : ℕ) :
    (markInactiveIfNotSeen now st).sessions.lookup pid =
      (st.sessions.lookup pid).map
        (autoCloseSession now st.inactive_timeout (st.person_last_seen.lookup pid)) := by
  simp only [markInactiveIfNotSeen]
  generalize st.sessions = l
  induction l with
  | nil => simp
  | cons hd tl ih =>
    obtain ⟨k', v⟩ := hd
    by_cases h : pid = k'
    · subst h; simp [List.lookup]
    · have hb : (pid == k') = false := beq_eq_false_iff_ne.mpr h
      simp [List.lookup, hb, ih]

theorem c5_mark_inactive_auto_exit
    (st : SessionManager) (pid : ℕ) (s : Session) (t now : ℚ)
    (hs : st.sessions.lookup pid = some s) (hopen : s.exit_time = none)
    (hls : st.person_last_seen.lookup pid = some t)
    (hto : st.inactive_timeout < now - t) :
    (markInactiveIfNotSeen now st).sessions.lookup pid =
      some { s with exit_time := some t, events := s.events ++ ["AUTO_EXIT"] } ∧
    (∀ (pid' : ℕ) (s' : Session) (x : ℚ), st.sessions.lookup pid' = some s' →
      s'.exit_time = some x →
      (markInactiveIfNotSeen now st).sessions.lookup pid' = some s') := by
  constructor
  · rw [lookup_markInactive, hs]
    simp [autoCloseSession, hopen, hls, hto]
  · intro pid' s' x hs' hx
    rw [lookup_markInactive, hs']
    simp [autoCloseSession, hx]

/-- A concrete state for the C5 witness: person 1 has an open session
last seen at t=0, person 2 a session closed at t=1. -/
noncomputable def c5W : SessionManager :=
  { thr := 62 / 100,
    sessions :=
      [(1, { session_id := "CUST_001", entry_time := some 0, last_seen_time := some 0 }),
       (2, { session_id := "CUST_002", entry_time := some 0, exit_time := some 1,
             events := ["ENTRY", "EXIT"] })],
    person_last_seen := [(1, 0), (2, 1)] }

/-- Witness for C5: at now=6 with a 5 s timeout and last-seen t=0, the
open session is auto-closed with `exit_time = 0` (the last-seen time) and
an appended `"AUTO_EXIT"`; the already-closed session is untouched. -/
theorem c5_witness :
    (markInactiveIfNotSeen 6 c5W).sessions.lookup 1 =
      some { session_id := "CUST_001", entry_time := some 0, exit_time := some 0,
             events := ["AUTO_EXIT"], last_seen_time := some 0, zone_visits := [] } ∧
    (markInactiveIfNotSeen 6 c5W).sessions.lookup 2 =
      some { session_id := "CUST_002", entry_time := some 0, exit_time := some 1,
             events := ["ENTRY", "EXIT"], last_seen_time := none, zone_visits := [] } := by
  have h := c5_mark_inactive_auto_exit c5W 1
    { session_id := "CUST_001", entry_time := some 0, last_seen_time := some 0 }
    0 6 rfl rfl rfl (by norm_num [c5W])
  refine ⟨by simpa using h.1, ?_⟩
  have h2 := h.2 2
    { session_id := "CUST_002", entry_time := some 0, exit_time := some 1,
      events := ["ENTRY", "EXIT"] } 1 rfl rfl
  simpa using h2

/-! ### C7: at most one open zone visit per (session, zone) -/

/-- Names of the still-open zone visits, in list order. -/
def openNames (l : List ZoneVisit) : List String :=
  (l.filter (fun zv => decide (zv.exit_time = none))).map (fun zv => zv.zone_name)

/-- Number of open visits to zone `z`. -/
def openCount (z : String) (l : List ZoneVisit) : ℕ := (openNames l).count z

/-- The invariant of C7: within each session, no zone name has two open
visits (`Nodup` of the open names is exactly "at most one open visit per
zone"). -/
def ZoneInv (st : SessionManager) : Prop :=
  ∀ e ∈ st.sessions, (openNames e.2.zone_visits).Nodup

theorem openNames_cons (zv : ZoneVisit) (l : List ZoneVisit) :
    openNames (zv :: l) =
      if zv.exit_time = none then zv.zone_name :: openNames l else openNames l := by
  by_cases h : zv.exit_time = none <;> simp [openNames, List.filter, h]

theorem mem_openNames (z : String) (l : List ZoneVisit) :
    z ∈ openNames l ↔ ∃ zv ∈ l, zv.zone_name = z ∧ zv.exit_time = none := by
  simp only [openNames, List.mem_map, List.mem_filter, decide_eq_true_eq]
  constructor
  · rintro ⟨zv, ⟨hm, he⟩, hn⟩
    exact ⟨zv, hm, hn, he⟩
  · rintro ⟨zv, hm, hn, he⟩
    exact ⟨zv, ⟨hm, he⟩, hn⟩

theorem hasOpenVisit_iff (z : String) (l : List ZoneVisit) :
    hasOpenVisit z l = true ↔ z ∈ openNames l := by
  simp only [hasOpenVisit, List.any_eq_true, decide_eq_true_eq, mem_openNames]

theorem openNames_append (l₁ l₂ : List ZoneVisit) :
    openNames (l₁ ++ l₂) = openNames l₁ ++ openNames l₂ := by
  simp [openNames, List.filter_append]

theorem openNames_reverse (l : List ZoneVisit) :
    openNames l.reverse = (openNames l).reverse := by
  simp [openNames, List.filter_reverse]

theorem closeFirstOpen_length (z : String) (now : ℚ) :
    ∀ l : List ZoneVisit, (closeFirstOpen z now l).length = l.length := by
  intro l
  induction l with
  | nil => rfl
  | cons zv rest ih =>
    by_cases h : zv.zone_name = z ∧ zv.exit_time = none <;>
      simp [closeFirstOpen, h, ih]

theorem openNames_closeFirstOpen (z : String) (now : ℚ) :
    ∀ l : List ZoneVisit, openNames (closeFirstOpen z now l) = (openNames l).erase z := by
  intro l
  induction l with
  | nil => simp [closeFirstOpen, openNames]
  | cons zv rest ih =>
    by_cases h : zv.zone_name = z ∧ zv.exit_time = none
    · simp only [closeFirstOpen, if_pos h]
      rw [openNames_cons, openNames_cons]
      simp [h.1, h.2]
    · simp only [closeFirstOpen, if_neg h]
      rw [openNames_cons, openNames_cons]
      by_cases he : zv.exit_time = none
      · have hn : ¬ zv.zone_name = z := fun hc => h ⟨hc, he⟩
        simp only [if_pos he, ih]
        rw [List.erase_cons_tail]
        simp [hn]
      · simp [he, ih]

theorem closeFirstOpen_eq_self (z : String) (now : ℚ) :
    ∀ l : List ZoneVisit, (∀ zv ∈ l, ¬ (zv.zone_name = z ∧ zv.exit_time = none)) →
      closeFirstOpen z now l = l := by
  intro l
  induction l with
  | nil => intro _; rfl
  | cons zv rest ih =>
    intro h
    have h1 := h zv (List.mem_cons_self _ _)
    simp only [closeFirstOpen, if_neg h1]
    rw [ih (fun zv hm => h zv (List.mem_cons_of_mem _ hm))]

theorem updateVal_eq_self {α : Type} (k : ℕ) (f : α → α) :
    ∀ (l : List (ℕ × α)) (v : α), List.lookup k l = some v → f v = v →
      updateVal k f l = l := by
  intro l
  induction l with
  | nil => intro v hv; simp at hv
  | cons hd tl ih =>
    intro v hv hf
    obtain ⟨k', w⟩ := hd
    by_cases h : k = k'
    · subst h
      simp only [List.lookup, beq_self_eq_true] at hv
      obtain rfl : w = v := by simpa using hv
      simp [updateVal, hf]
    · have hb : (k == k') = false := beq_eq_false_iff_ne.mpr h
      simp only [List.lookup, hb] at hv
      simp [updateVal, hb, ih v hv hf]

/-- Transfer of the zone invariant along any state change whose sessions
all either keep the zone visits of some old session or start empty. -/
theorem zoneInv_transfer (st st' : SessionManager)
    (h : ∀ e ∈ st'.sessions,
      e.2.zone_visits = [] ∨ ∃ e₀ ∈ st.sessions, e.2.zone_visits = e₀.2.zone_visits)
    (hinv : ZoneInv st) : ZoneInv st' := by
  intro e he
  rcases h e he with h1 | ⟨e₀, he₀, h2⟩
  · simp [h1, openNames]
  · rw [h2]; exact hinv e₀ he₀

/-- The operations of `SessionManager` other than the identity resolver,
packaged for the C7 statement. -/
inductive SMOp where
  | entry (now : ℚ) (pid : ℕ)
  | exitEv (now : ℚ) (pid : ℕ)
  | getSid (now : ℚ) (pid : ℕ)
  | sweep (now : ℚ)
  | active (now : ℚ)
  | zoneEntry (now : ℚ) (pid : ℕ) (z : String)
  | zoneExit (now : ℚ) (pid : ℕ) (z : String)

/-- Dispatch an operation to the corresponding `SessionManager` method
(for `get_session_id` and `active_sessions`, the post-state). -/
def applyOp : SMOp → SessionManager → SessionManager
  | .entry now pid, st => onEntry now pid st
  | .exitEv now pid, st => onExit now pid st
  | .getSid now pid, st => (getSessionId now pid st).2
  | .sweep now, st => markInactiveIfNotSeen now st
  | .active now, st => (activeSessions now st).2
  | .zoneEntry now pid z, st => onZoneEntry now pid z st
  | .zoneExit now pid z, st => onZoneExit now pid z st

theorem zoneInv_updateVal (st : SessionManager) (pid : ℕ) (f : Session → Session)
    (hf : ∀ s, (f s).zone_visits = s.zone_visits) (hinv : ZoneInv st) :
    ZoneInv { st with sessions := updateVal pid f st.sessions } := by
  apply zoneInv_transfer st
  · intro e he
    rcases mem_updateVal pid f st.sessions e he with h1 | ⟨y, hy, h2⟩
    · exact Or.inr ⟨e, h1, rfl⟩
    · exact Or.inr ⟨y, hy, by rw [h2]; exact hf y.2⟩
  · exact hinv

theorem mem_updateVal_eq {α : Type} (k : ℕ) (f : α → α) :
    ∀ (l : List (ℕ × α)) (x : ℕ × α), x ∈ updateVal k f l →
      x ∈ l ∨ ∃ v, List.lookup k l = some v ∧ x = (k, f v) := by
  intro l
  induction l with
  | nil => intro x hx; simp [updateVal] at hx
  | cons hd tl ih =>
    intro x hx
    obtain ⟨k₀, v₀⟩ := hd
    simp only [updateVal] at hx
    by_cases h : k = k₀
    · subst h
      rw [if_pos (by simp)] at hx
      rcases List.mem_cons.mp hx with h1 | h1
      · exact Or.inr ⟨v₀, by simp [List.lookup], h1⟩
      · exact Or.inl (List.mem_cons_of_mem _ h1)
    · have hb : (k == k₀) = false := beq_eq_false_iff_ne.mpr h
      rw [if_neg (by simp [hb])] at hx
      rcases List.mem_cons.mp hx with h1 | h1
      · exact Or.inl (h1 ▸ List.mem_cons_self _ _)
      · rcases ih x h1 with h2 | ⟨v, hv, hxv⟩
        · exact Or.inl (List.mem_cons_of_mem _ h2)
        · exact Or.inr ⟨v, by simp [List.lookup, hb, hv], hxv⟩

theorem mem_of_lookup {α : Type} (k : ℕ) (v : α) :
    ∀ l : List (ℕ × α), List.lookup k l = some v → (k, v) ∈ l := by
  intro l
  induction l with
  | nil => intro h; simp at h
  | cons hd tl ih =>
    intro h
    obtain ⟨k', w⟩ := hd
    by_cases hk : k = k'
    · subst hk
      simp only [List.lookup, beq_self_eq_true] at h
      obtain rfl : w = v := by simpa using h
      exact List.mem_cons_self _ _
    · have hb : (k == k') = false := beq_eq_false_iff_ne.mpr hk
      simp only [List.lookup, hb] at h
      exact List.mem_cons_of_mem _ (ih h)

theorem zoneInv_of_sessions_eq (st st' : SessionManager)
    (h : st'.sessions = st.sessions) (hinv : ZoneInv st) : ZoneInv st' := by
  intro e he
  exact hinv e (h ▸ he)

theorem zoneInv_updateVal_nodup (st : SessionManager) (pid : ℕ) (f : Session → Session)
    (hf : ∀ s : Session, (openNames s.zone_visits).Nodup → (openNames (f s).zone_visits).Nodup)
    (hinv : ZoneInv st) :
    ZoneInv { st with sessions := updateVal pid f st.sessions } := by
  intro e he
  rcases mem_updateVal pid f st.sessions e he with h1 | ⟨y, hy, h2⟩
  · exact hinv e h1
  · rw [h2]
    exact hf y.2 (hinv y hy)

theorem autoCloseSession_zone_visits (now timeout : ℚ) (lastSeenOpt : Option ℚ)
    (s : Session) : (autoCloseSession now timeout lastSeenOpt s).zone_visits = s.zone_visits := by
  unfold autoCloseSession
  split
  · split
    · dsimp only
      split_ifs <;> rfl
    · dsimp only
      split
      · split_ifs <;> rfl
      · rfl
  · rfl

theorem zoneInv_onEntry (now : ℚ) (pid : ℕ) (st : SessionManager) (hinv : ZoneInv st) :
    ZoneInv (onEntry now pid st) := by
  have hins : ZoneInv (if (st.sessions.lookup pid).isNone then
      { st with
        sessions :=
          dictSet pid { session_id := sessionIdString st.next_session_num,
                        last_seen_time := some now } st.sessions,
        next_session_num := st.next_session_num + 1 }
    else st) := by
    split
    · refine zoneInv_transfer st _ ?_ hinv
      intro e he
      rcases mem_dictSet _ _ _ e he with h1 | h1
      · exact Or.inr ⟨e, h1, rfl⟩
      · left; rw [h1]
    · exact hinv
  refine zoneInv_updateVal_nodup _ pid _ ?_ hins
  intro s hs
  by_cases h : s.entry_time = none <;> simpa [h] using hs

theorem zoneInv_onExit (now : ℚ) (pid : ℕ) (st : SessionManager) (hinv : ZoneInv st) :
    ZoneInv (onExit now pid st) := by
  unfold onExit
  split
  · exact hinv
  · refine zoneInv_updateVal_nodup _ pid _ ?_ hinv
    intro s hs
    by_cases h : s.exit_time = none <;> simpa [h] using hs

theorem zoneInv_getSessionId (now : ℚ) (pid : ℕ) (st : SessionManager) (hinv : ZoneInv st) :
    ZoneInv (getSessionId now pid st).2 := by
  unfold getSessionId
  cases h : st.sessions.lookup pid with
  | none => exact hinv
  | some s =>
    refine zoneInv_updateVal_nodup _ pid _ ?_ hinv
    intro s hs
    by_cases h : s.entry_time = none <;> simpa [h] using hs

theorem zoneInv_markInactive (now : ℚ) (st : SessionManager) (hinv : ZoneInv st) :
    ZoneInv (markInactiveIfNotSeen now st) := by
  refine zoneInv_transfer st _ ?_ hinv
  intro e he
  simp only [markInactiveIfNotSeen, List.mem_map] at he
  obtain ⟨e₀, he₀, rfl⟩ := he
  exact Or.inr ⟨e₀, he₀, autoCloseSession_zone_visits _ _ _ _⟩

theorem zoneInv_activeSessions (now : ℚ) (st : SessionManager) (hinv : ZoneInv st) :
    ZoneInv (activeSessions now st).2 :=
  zoneInv_markInactive now st hinv

theorem zoneInv_onZoneEntry (now : ℚ) (pid : ℕ) (z : String) (st : SessionManager)
    (hinv : ZoneInv st) : ZoneInv (onZoneEntry now pid z st) := by
  unfold onZoneEntry
  cases hl : st.sessions.lookup pid with
  | none => exact hinv
  | some s =>
    dsimp only
    by_cases ho : hasOpenVisit z s.zone_visits
    · rw [if_pos ho]; exact hinv
    · rw [if_neg ho]
      intro e he
      rcases mem_updateVal_eq pid _ st.sessions e he with h1 | ⟨v, hv, h2⟩
      · exact hinv e h1
      · obtain rfl : s = v := by rw [hl] at hv; exact Option.some.injEq .. ▸ hv
        rw [h2]
        simp only [openNames_append]
        have hz : z ∉ openNames s.zone_visits := by
          intro hm
          exact ho ((hasOpenVisit_iff z s.zone_visits).mpr hm)
        have h1 : openNames [({ zone_name := z, entry_time := now } : ZoneVisit)] = [z] := rfl
        rw [h1]
        refine List.Nodup.append (hinv (pid, s) ?_) (List.nodup_singleton z) ?_
        · exact mem_of_lookup pid s st.sessions hl
        · intro a ha hb
          rw [List.mem_singleton] at hb
          exact hz (hb ▸ ha)

theorem zoneInv_onZoneExit (now : ℚ) (pid : ℕ) (z : String) (st : SessionManager)
    (hinv : ZoneInv st) : ZoneInv (onZoneExit now pid z st) := by
  unfold onZoneExit
  cases hl : st.sessions.lookup pid with
  | none => exact hinv
  | some s =>
    dsimp only
    refine zoneInv_updateVal_nodup _ pid _ ?_ hinv
    intro s hs
    rw [openNames_reverse, List.nodup_reverse, openNames_closeFirstOpen, openNames_reverse]
    exact List.Nodup.erase z ((List.nodup_reverse).mpr hs)

theorem updateGallery_sessions (pid : ℕ) (e : List ℝ) (st st₂ : SessionManager)
    (h : updateGallery pid e st = .ok st₂) : st₂.sessions = st.sessions := by
  unfold updateGallery at h
  cases hpe : st.person_embedding.lookup pid with
  | none =>
    rw [hpe] at h
    cases h
    rfl
  | some g =>
    rw [hpe] at h
    dsimp only at h
    split at h
    · cases h
      rfl
    · cases h

theorem zoneInv_assignIdentity (tnow : ℚ) (tid : ℕ) (e : List ℝ) (st : SessionManager)
    (r : ℕ) (st' : SessionManager) (h : assignIdentity tnow tid e st = .ok (r, st'))
    (hinv : ZoneInv st) : ZoneInv st' := by
  unfold assignIdentity at h
  cases hl : st.track_to_person.lookup tid with
  | some pid =>
    rw [hl] at h
    dsimp only at h
    cases hg : updateGallery pid e st with
    | error msg => rw [hg] at h; cases h
    | ok st₂ =>
      rw [hg] at h
      dsimp only at h
      have h₂ : ZoneInv st₂ :=
        zoneInv_of_sessions_eq st st₂ (updateGallery_sessions pid e st st₂ hg) hinv
      split at h
      · cases h
        refine zoneInv_updateVal_nodup _ _ _ ?_ ?_
        · intro s hs; simpa using hs
        · exact zoneInv_of_sessions_eq st₂ _ rfl h₂
      · cases h
        exact zoneInv_of_sessions_eq st₂ _ rfl h₂
  | none =>
    rw [hl] at h
    dsimp only at h
    split at h
    · cases h
      exact zoneInv_of_sessions_eq st _ rfl hinv
    · cases hb : bestMatch (l2_normalize e) st.person_embedding none (-1) with
      | error msg => rw [hb] at h; cases h
      | ok p =>
        rw [hb] at h
        obtain ⟨bp, bs⟩ := p
        dsimp only at h
        cases bp with
        | some bpid =>
          dsimp only at h
          split at h
          · cases hg : updateGallery bpid (l2_normalize e) st with
            | error msg => rw [hg] at h; cases h
            | ok st₂ =>
              rw [hg] at h
              dsimp only at h
              cases h
              exact zoneInv_of_sessions_eq st _
                (updateGallery_sessions _ (l2_normalize e) st st₂ hg) hinv
          · cases h
            exact zoneInv_of_sessions_eq st _ rfl hinv
        | none =>
          dsimp only at h
          cases h
          exact zoneInv_of_sessions_eq st _ rfl hinv

/-- C7: every `SessionManager` operation preserves the invariant that
each session has at most one open zone visit per zone name (`Nodup` of
the open-visit names, equivalently `openCount ≤ 1` for every zone);
`on_zone_entry` is a no-op when a visit to that zone is already open, and
`on_zone_exit` closes the one open visit to that zone (leaving its other
zones' open counts and its visit count unchanged) or is a no-op when none
is open. -/
theorem c7_zone_visit_invariant
    (st : SessionManager) (hinv : ZoneInv st)
    (op : SMOp) (now tnow : ℚ) (pid : ℕ) (z : String) (s : Session) :
    ZoneInv (applyOp op st) ∧
    (∀ (tid : ℕ) (e : List ℝ) (r : ℕ) (st' : SessionManager),
      assignIdentity tnow tid e st = .ok (r, st') → ZoneInv st') ∧
    (∀ e ∈ st.sessions, ∀ zn : String, openCount zn e.2.zone_visits ≤ 1) ∧
    (st.sessions.lookup pid = some s → hasOpenVisit z s.zone_visits = true →
      onZoneEntry now pid z st = st) ∧
    (st.sessions.lookup pid = none →
      onZoneEntry now pid z st = st ∧ onZoneExit now pid z st = st) ∧
    (st.sessions.lookup pid = some s → hasOpenVisit z s.zone_visits = false →
      onZoneExit now pid z st = st) ∧
    (st.sessions.lookup pid = some s → hasOpenVisit z s.zone_visits = true →
      ∃ s', (onZoneExit now pid z st).sessions.lookup pid = some s' ∧
        hasOpenVisit z s'.zone_visits = false ∧
        s'.zone_visits.length = s.zone_visits.length ∧
        (∀ z', z' ≠ z → openCount z' s'.zone_visits = openCount z' s.zone_visits)) := by
  refine ⟨?_, ?_, ?_, ?_, ?_, ?_, ?_⟩
  · cases op with
    | entry n p => exact zoneInv_onEntry n p st hinv
    | exitEv n p => exact zoneInv_onExit n p st hinv
    | getSid n p => exact zoneInv_getSessionId n p st hinv
    | sweep n => exact zoneInv_markInactive n st hinv
    | active n => exact zoneInv_activeSessions n st hinv
    | zoneEntry n p zz => exact zoneInv_onZoneEntry n p zz st hinv
    | zoneExit n p zz => exact zoneInv_onZoneExit n p zz st hinv
  · intro tid e r st' h
    exact zoneInv_assignIdentity tnow tid e st r st' h hinv
  · intro e he zn
    exact List.nodup_iff_count_le_one.mp (hinv e he) zn
  · intro hlk ho
    unfold onZoneEntry
    rw [hlk]
    dsimp only
    rw [if_pos ho]
  · intro hlk
    constructor
    · unfold onZoneEntry; rw [hlk]
    · unfold onZoneExit; rw [hlk]
  · intro hlk hno
    unfold onZoneExit
    rw [hlk]
    dsimp only
    have hf : (fun s : Session =>
        { s with zone_visits := (closeFirstOpen z now s.zone_visits.reverse).reverse }) s = s := by
      have hc : closeFirstOpen z now s.zone_visits.reverse = s.zone_visits.reverse := by
        apply closeFirstOpen_eq_self
        intro zv hm hzv
        have : z ∈ openNames s.zone_visits := by
          rw [mem_openNames]
          exact ⟨zv, List.mem_reverse.mp hm, hzv⟩
        rw [← hasOpenVisit_iff] at this
        rw [hno] at this
        cases this
      simp [hc]
    rw [updateVal_eq_self pid _ st.sessions s hlk hf]
  · intro hlk ho
    unfold onZoneExit
    rw [hlk]
    dsimp only
    refine ⟨{ s with zone_visits := (closeFirstOpen z now s.zone_visits.reverse).reverse },
      ?_, ?_, ?_, ?_⟩
    · rw [lookup_updateVal_self, hlk]
      rfl
    · have hnodup : (openNames s.zone_visits).Nodup :=
        hinv (pid, s) (mem_of_lookup pid s st.sessions hlk)
      have hz : z ∈ openNames s.zone_visits := (hasOpenVisit_iff z s.zone_visits).mp ho
      have hcount : (openNames s.zone_visits).count z = 1 := by
        have h1 : 0 < (openNames s.zone_visits).count z := List.count_pos_iff.mpr hz
        have h2 := List.nodup_iff_count_le_one.mp hnodup z
        omega
      rw [Bool.eq_false_iff]
      intro hcontra
      have hmem := (hasOpenVisit_iff z _).mp hcontra
      rw [mem_openNames] at hmem
      have hthis : z ∈ openNames ((closeFirstOpen z now s.zone_visits.reverse).reverse) := by
        rw [mem_openNames]; exact hmem
      rw [openNames_reverse, openNames_closeFirstOpen, openNames_reverse] at hthis
      have hc := List.count_pos_iff.mpr hthis
      rw [List.count_reverse, List.count_erase_self, List.count_reverse, hcount] at hc
      omega
    · simp [closeFirstOpen_length]
    · intro z' hz'
      unfold openCount
      rw [openNames_reverse, openNames_closeFirstOpen, openNames_reverse,
        List.count_reverse, List.count_erase_of_ne hz', List.count_reverse]

/-- Session for the C7 witness: one open visit to "A", one closed visit
to "B". -/
def c7S : Session :=
  { session_id := "CUST_001", entry_time := some 0,
    zone_visits := [{ zone_name := "A", entry_time := 0 },
                    { zone_name := "B", entry_time := 1, exit_time := some 2 }] }

/-- Session-manager state for the C7 witness. -/
noncomputable def c7W : SessionManager :=
  { thr := 62 / 100, sessions := [(1, c7S)] }

/-- Witness for C7 at a concrete state satisfying the invariant. -/
theorem c7_witness :
    ZoneInv (applyOp (SMOp.zoneEntry 5 1 "A") c7W) ∧
    (∀ (tid : ℕ) (e : List ℝ) (r : ℕ) (st' : SessionManager),
      assignIdentity 0 tid e c7W = .ok (r, st') → ZoneInv st') ∧
    (∀ e ∈ c7W.sessions, ∀ zn : String, openCount zn e.2.zone_visits ≤ 1) ∧
    (c7W.sessions.lookup 1 = some c7S → hasOpenVisit "A" c7S.zone_visits = true →
      onZoneEntry 5 1 "A" c7W = c7W) ∧
    (c7W.sessions.lookup 1 = none →
      onZoneEntry 5 1 "A" c7W = c7W ∧ onZoneExit 5 1 "A" c7W = c7W) ∧
    (c7W.sessions.lookup 1 = some c7S → hasOpenVisit "A" c7S.zone_visits = false →
      onZoneExit 5 1 "A" c7W = c7W) ∧
    (c7W.sessions.lookup 1 = some c7S → hasOpenVisit "A" c7S.zone_visits = true →
      ∃ s', (onZoneExit 5 1 "A" c7W).sessions.lookup 1 = some s' ∧
        hasOpenVisit "A" s'.zone_visits = false ∧
        s'.zone_visits.length = c7S.zone_visits.length ∧
        (∀ z', z' ≠ "A" → openCount z' s'.zone_visits = openCount z' c7S.zone_visits)) :=
  c7_zone_visit_invariant c7W
    (by
      intro e he
      simp only [c7W] at he
      rw [List.mem_singleton] at he
      subst he
      decide)
    (SMOp.zoneEntry 5 1 "A") 5 0 1 "A" c7S

/-! ### C6: greedy IoU matching is injective in both directions -/

theorem greedyMatch_spec (thr : ℚ) :
    ∀ (ps : List (ℕ × ℕ × ℚ)) (mt used : List ℕ) (acc : List (ℕ × ℕ)),
      (acc.map Prod.fst).Nodup → (acc.map Prod.snd).Nodup →
      (∀ pr ∈ acc, pr.1 ∈ mt) → (∀ pr ∈ acc, pr.2 ∈ used) →
      ((greedyMatch thr ps mt used acc).1.map Prod.fst).Nodup ∧
      ((greedyMatch thr ps mt used acc).1.map Prod.snd).Nodup ∧
      (∀ pr ∈ (greedyMatch thr ps mt used acc).1, pr.2 ∈ (greedyMatch thr ps mt used acc).2) ∧
      (∀ x ∈ used, x ∈ (greedyMatch thr ps mt used acc).2) ∧
      (∀ pr ∈ (greedyMatch thr ps mt used acc).1,
        pr ∈ acc ∨ ∃ q ∈ ps, pr.1 = q.1 ∧ pr.2 = q.2.1) := by
  intro ps
  induction ps with
  | nil =>
    intro mt used acc h1 h2 h3 h4
    simp only [greedyMatch]
    refine ⟨?_, ?_, ?_, fun x hx => hx, fun pr hpr => Or.inl (List.mem_reverse.mp hpr)⟩
    · rw [List.map_reverse, List.nodup_reverse]; exact h1
    · rw [List.map_reverse, List.nodup_reverse]; exact h2
    · intro pr hpr
      exact h4 pr (List.mem_reverse.mp hpr)
  | cons hd rest ih =>
    intro mt used acc h1 h2 h3 h4
    obtain ⟨tid, di, iou⟩ := hd
    by_cases hth : iou < thr
    · simp only [greedyMatch, if_pos hth]
      refine ⟨?_, ?_, ?_, fun x hx => hx, fun pr hpr => Or.inl (List.mem_reverse.mp hpr)⟩
      · rw [List.map_reverse, List.nodup_reverse]; exact h1
      · rw [List.map_reverse, List.nodup_reverse]; exact h2
      · intro pr hpr
        exact h4 pr (List.mem_reverse.mp hpr)
    · by_cases hused : tid ∈ mt ∨ di ∈ used
      · simp only [greedyMatch, if_neg hth, if_pos hused]
        obtain ⟨g1, g2, g3, g4, g5⟩ := ih mt used acc h1 h2 h3 h4
        refine ⟨g1, g2, g3, g4, fun pr hpr => ?_⟩
        rcases g5 pr hpr with h | ⟨q, hq, he⟩
        · exact Or.inl h
        · exact Or.inr ⟨q, List.mem_cons_of_mem _ hq, he⟩
      · simp only [greedyMatch, if_neg hth, if_neg hused]
        have hmt : tid ∉ mt := fun hc => hused (Or.inl hc)
        have hdi : di ∉ used := fun hc => hused (Or.inr hc)
        have h1' : (((tid, di) :: acc).map Prod.fst).Nodup := by
          simp only [List.map_cons, List.nodup_cons]
          exact ⟨fun hc => by
            obtain ⟨pr, hpr, he⟩ := List.mem_map.mp hc
            exact hmt (he ▸ h3 pr hpr), h1⟩
        have h2' : (((tid, di) :: acc).map Prod.snd).Nodup := by
          simp only [List.map_cons, List.nodup_cons]
          exact ⟨fun hc => by
            obtain ⟨pr, hpr, he⟩ := List.mem_map.mp hc
            exact hdi (he ▸ h4 pr hpr), h2⟩
        have h3' : ∀ pr ∈ (tid, di) :: acc, pr.1 ∈ tid :: mt := by
          intro pr hpr
          rcases List.mem_cons.mp hpr with h | h
          · subst h; exact List.mem_cons_self _ _
          · exact List.mem_cons_of_mem _ (h3 pr h)
        have h4' : ∀ pr ∈ (tid, di) :: acc, pr.2 ∈ di :: used := by
          intro pr hpr
          rcases List.mem_cons.mp hpr with h | h
          · subst h; exact List.mem_cons_self _ _
          · exact List.mem_cons_of_mem _ (h4 pr h)
        obtain ⟨g1, g2, g3, g4, g5⟩ := ih (tid :: mt) (di :: used) ((tid, di) :: acc) h1' h2' h3' h4'
        refine ⟨g1, g2, g3, fun x hx => g4 x (List.mem_cons_of_mem _ hx), fun pr hpr => ?_⟩
        rcases g5 pr hpr with h | ⟨q, hq, he⟩
        · rcases List.mem_cons.mp h with h | h
          · exact Or.inr ⟨(tid, di, iou), List.mem_cons_self _ _, by rw [h], by rw [h]⟩
          · exact Or.inl h
        · exact Or.inr ⟨q, List.mem_cons_of_mem _ hq, he⟩

theorem buildPairs_fst (tracks : List (ℕ × Box)) (dets : List Box)
    (q : ℕ × ℕ × ℚ) (h : q ∈ buildPairs tracks dets) :
    ∃ p ∈ tracks, q.1 = p.1 := by
  simp only [buildPairs, List.mem_flatMap, List.mem_map] at h
  obtain ⟨tb, htb, db, -, he⟩ := h
  exact ⟨tb, htb, by rw [← he]⟩

/-- C6: one `update()` call of the tracker never assigns two tracks to
the same detection nor two detections to the same track: the combined
assignment (greedy matches plus freshly spawned tracks for unmatched
detections) has pairwise-distinct track ids and pairwise-distinct
detection indices, provided — as the tracker's id counter guarantees —
every live track id is below the next fresh id. -/
theorem c6_update_assignment_injective (thr : ℚ) (tracks : List (ℕ × Box))
    (nextId : ℕ) (dets : List Box)
    (hfresh : ∀ p ∈ tracks, p.1 < nextId) :
    ((trackerAssignments thr tracks nextId dets).map Prod.fst).Nodup ∧
    ((trackerAssignments thr tracks nextId dets).map Prod.snd).Nodup := by
  unfold trackerAssignments
  dsimp only
  set pairs := (buildPairs tracks dets).mergeSort (fun a b => decide (b.2.2 ≤ a.2.2)) with hpairs
  obtain ⟨g1, g2, g3, -, g5⟩ :=
    greedyMatch_spec thr pairs [] [] [] (by simp) (by simp) (by simp) (by simp)
  set gm := greedyMatch thr pairs [] [] [] with hgm
  have hmfst : ∀ a ∈ gm.1.map Prod.fst, a < nextId := by
    intro a ha
    obtain ⟨pr, hpr, he⟩ := List.mem_map.mp ha
    rcases g5 pr hpr with h | ⟨q, hq, he1, -⟩
    · simp at h
    · have hq' : q ∈ buildPairs tracks dets := by
        rw [hpairs] at hq
        exact (List.mem_mergeSort).mp hq
      obtain ⟨p, hp, he2⟩ := buildPairs_fst tracks dets q hq'
      rw [← he, he1, he2]
      exact hfresh p hp
  have hmsnd : ∀ a ∈ gm.1.map Prod.snd, a ∈ gm.2 := by
    intro a ha
    obtain ⟨pr, hpr, he⟩ := List.mem_map.mp ha
    exact he ▸ g3 pr hpr
  set unmatched := (List.range dets.length).filter (fun di => decide (¬ di ∈ gm.2))
    with hunm
  have hufst : (unmatched.enum.map (fun kd => (nextId + kd.1, kd.2))).map Prod.fst =
      (List.range unmatched.length).map (fun k => nextId + k) := by
    rw [List.map_map]
    have : (Prod.fst ∘ fun kd : ℕ × ℕ => (nextId + kd.1, kd.2)) =
        (fun k => nextId + k) ∘ Prod.fst := rfl
    rw [this, ← List.map_map, List.enum_map_fst]
  have husnd : (unmatched.enum.map (fun kd => (nextId + kd.1, kd.2))).map Prod.snd =
      unmatched := by
    rw [List.map_map]
    have : (Prod.snd ∘ fun kd : ℕ × ℕ => (nextId + kd.1, kd.2)) = Prod.snd := rfl
    rw [this, List.enum_map_snd]
  constructor
  · rw [List.map_append]
    refine List.Nodup.append g1 ?_ ?_
    · rw [hufst]
      exact (List.nodup_range _).map (fun a b hab => by omega)
    · intro a ha hb
      have h1 := hmfst a ha
      rw [hufst] at hb
      obtain ⟨k, -, he⟩ := List.mem_map.mp hb
      omega
  · rw [List.map_append]
    refine List.Nodup.append g2 ?_ ?_
    · rw [husnd]
      exact (List.nodup_range _).filter _
    · intro a ha hb
      have h1 := hmsnd a ha
      rw [husnd] at hb
      rw [hunm, List.mem_filter] at hb
      have := hb.2
      simp only [decide_eq_true_eq] at this
      exact this h1

/-- Witness for C6: a concrete update with two live tracks and two
detections, one overlapping and one fresh. -/
theorem c6_witness :
    ((trackerAssignments (3/10) [(1, (0, 0, 10, 10)), (2, (20, 20, 30, 30))] 3
        [(0, 0, 10, 10), (100, 100, 110, 110)]).map Prod.fst).Nodup ∧
    ((trackerAssignments (3/10) [(1, (0, 0, 10, 10)), (2, (20, 20, 30, 30))] 3
        [(0, 0, 10, 10), (100, 100, 110, 110)]).map Prod.snd).Nodup :=
  c6_update_assignment_injective (3/10) [(1, (0, 0, 10, 10)), (2, (20, 20, 30, 30))] 3
    [(0, 0, 10, 10), (100, 100, 110, 110)] (by decide)

/-! ### C3 and C4: embedding arithmetic lemmas -/

theorem l2_normalize_length (x : List ℝ) : (l2_normalize x).length = x.length := by
  simp [l2_normalize]

theorem dotSum_zero_left : ∀ (a b : List ℝ), (∀ v ∈ a, v = 0) → dotSum a b = 0 := by
  intro a
  induction a with
  | nil => intro b _; cases b <;> rfl
  | cons x xs ih =>
    intro b hz
    cases b with
    | nil => rfl
    | cons y ys =>
      have hx : x = 0 := hz x (List.mem_cons_self _ _)
      simp [dotSum, hx, ih ys (fun v hv => hz v (List.mem_cons_of_mem _ hv))]

theorem l2_normalize_zero_entries (x : List ℝ) (h : ∀ v ∈ x, v = 0) :
    ∀ v ∈ l2_normalize x, v = 0 := by
  intro v hv
  simp only [l2_normalize, List.mem_map] at hv
  obtain ⟨w, hw, rfl⟩ := hv
  rw [h w hw, zero_div]

theorem bestMatch_zero (emb : List ℝ) (hz : ∀ v ∈ emb, v = 0) :
    ∀ (gal : List (ℕ × List ℝ)), (∀ p ∈ gal, p.2.length = emb.length) →
      ∀ (bp : Option ℕ) (bs : ℝ), bs ≤ 0 →
        ∃ bp' bs', bestMatch emb gal bp bs = .ok (bp', bs') ∧ bs' ≤ 0 := by
  intro gal
  induction gal with
  | nil =>
    intro _ bp bs hbs
    exact ⟨bp, bs, rfl, hbs⟩
  | cons hd rest ih =>
    intro hlen bp bs hbs
    obtain ⟨pid, g⟩ := hd
    have hL : emb.length = g.length := (hlen (pid, g) (List.mem_cons_self _ _)).symm
    have hdot : cosine_similarity emb g = .ok 0 := by
      rw [cosine_similarity, npDot, if_pos hL, dotSum_zero_left emb g hz]
    simp only [bestMatch, hdot]
    by_cases hlt : bs < 0
    · rw [if_pos hlt]
      exact ih (fun p hp => hlen p (List.mem_cons_of_mem _ hp)) (some pid) 0 le_rfl
    · rw [if_neg hlt]
      exact ih (fun p hp => hlen p (List.mem_cons_of_mem _ hp)) bp bs hbs

/-- C3 as amended: `assign_identity` never raises on an all-zero
embedding whose dimension matches the gallery entries, and — since the
cosine similarity of the zero vector with every gallery entry is 0,
below any positive threshold — a fresh global identity with the next
sequential person id is created and bound to the track.  (A genuinely
zero-length embedding is only safe against an empty gallery — see the
counterexample.) -/
theorem c3_zero_embedding_gets_fresh_identity
    (now : ℚ) (tid n : ℕ) (st : SessionManager)
    (htid : st.track_to_person.lookup tid = none)
    (hthr : 0 < st.thr)
    (hlen : ∀ p ∈ st.person_embedding, p.2.length = n) :
    ∃ st', assignIdentity now tid (List.replicate n 0) st = .ok (st.next_person_id, st') ∧
      st'.next_person_id = st.next_person_id + 1 ∧
      st'.track_to_person = dictSet tid st.next_person_id st.track_to_person := by
  unfold assignIdentity
  rw [htid]
  dsimp only
  by_cases hemp : st.person_embedding.length = 0
  · rw [if_pos hemp]
    exact ⟨_, rfl, rfl, rfl⟩
  · rw [if_neg hemp]
    have hz : ∀ v ∈ l2_normalize (List.replicate n (0 : ℝ)), v = 0 :=
      l2_normalize_zero_entries _ (fun v hv => List.eq_of_mem_replicate hv)
    have hlen' : ∀ p ∈ st.person_embedding,
        p.2.length = (l2_normalize (List.replicate n (0 : ℝ))).length := by
      intro p hp
      rw [l2_normalize_length, List.length_replicate]
      exact hlen p hp
    obtain ⟨bp, bs, hbm, hbs⟩ :=
      bestMatch_zero _ hz st.person_embedding hlen' none (-1) (by norm_num)
    rw [hbm]
    dsimp only
    cases bp with
    | none => exact ⟨_, rfl, rfl, rfl⟩
    | some bpid =>
      dsimp only
      rw [if_neg (by intro hc; exact absurd (lt_of_le_of_lt hc (lt_of_le_of_lt hbs hthr)) (lt_irrefl _))]
      exact ⟨_, rfl, rfl, rfl⟩

/-- Counterexample to C3 as stated: a zero-length embedding presented
with a fresh track id against a nonempty gallery raises (`np.dot` of
shapes `(0,)` and `(2,)`): a first call builds a 2-dimensional gallery
entry, and the second call with embedding `[]` propagates `ValueError`
instead of creating an identity. -/
theorem c3_counterexample :
    (assignIdentity 0 1 [3, 4] (initSM (62 / 100))).bind
      (fun p => assignIdentity 0 2 [] p.2) = .error "shapes not aligned" := by
  have h1 : assignIdentity 0 1 [3, 4] (initSM (62 / 100)) =
      .ok (1, { thr := 62 / 100, next_person_id := 2, next_session_num := 1,
                person_embedding := [(1, l2_normalize (l2_normalize [3, 4]))],
                track_to_person := [(1, 1)], sessions := [], person_last_seen := [],
                inactive_timeout := 5 }) := by
    simp [assignIdentity, initSM, createPerson, dictSet, List.lookup]
  rw [h1]
  simp only [Except.bind]
  unfold assignIdentity
  rw [show List.lookup 2 [(1, 1)] = (none : Option ℕ) from rfl]
  dsimp only
  rw [if_neg (by simp)]
  have hne : ¬ ((l2_normalize ([] : List ℝ)).length =
      (l2_normalize (l2_normalize [(3 : ℝ), 4])).length) := by
    simp only [l2_normalize_length]
    simp
  have hbm : bestMatch (l2_normalize []) [(1, l2_normalize (l2_normalize [3, 4]))] none (-1)
      = .error "shapes not aligned" := by
    simp [bestMatch, cosine_similarity, npDot, hne]
  rw [hbm]

/-- Gallery state for the C3 witness: two 2-dimensional identities and an
unrelated track binding. -/
noncomputable def c3W : SessionManager :=
  { thr := 62 / 100, next_person_id := 3,
    person_embedding := [(1, [3 / 5, 4 / 5]), (2, [0, 1])],
    track_to_person := [(5, 1)] }

/-- Witness for the amended C3: an all-zero 2-dimensional embedding on a
fresh track id against a 2-dimensional gallery yields person id 3. -/
theorem c3_witness :
    ∃ st', assignIdentity 4 7 (List.replicate 2 0) c3W = .ok (c3W.next_person_id, st') ∧
      st'.next_person_id = c3W.next_person_id + 1 ∧
      st'.track_to_person = dictSet 7 c3W.next_person_id c3W.track_to_person :=
  c3_zero_embedding_gets_fresh_identity 4 7 2 c3W rfl
    (by rw [show c3W.thr = 62 / 100 from rfl]; norm_num)
    (by
      intro p hp
      simp only [c3W, List.mem_cons, List.not_mem_nil, or_false] at hp
      rcases hp with h | h <;> subst h <;> rfl)

/-! ### C4: the cosine threshold decides identity reuse -/

theorem sum_squares_nonneg (x : List ℝ) : 0 ≤ (x.map (fun v => v * v)).sum := by
  apply List.sum_nonneg
  intro v hv
  obtain ⟨w, -, rfl⟩ := List.mem_map.mp hv
  exact mul_self_nonneg w

theorem l2norm_nonneg (x : List ℝ) : 0 ≤ l2norm x := Real.sqrt_nonneg _

theorem l2Eps_pos : (0 : ℝ) < l2Eps := by norm_num [l2Eps]

theorem l2norm_map_div (x : List ℝ) (c : ℝ) (hc : 0 < c) :
    l2norm (x.map (fun v => v / c)) = l2norm x / c := by
  unfold l2norm
  rw [List.map_map]
  have h1 : ((fun v => v * v) ∘ fun v => v / c) = fun v => (v * v) * (c * c)⁻¹ := by
    funext v
    rw [Function.comp_apply]
    field_simp
  rw [h1]
  rw [List.sum_map_mul_right]
  rw [Real.sqrt_mul (sum_squares_nonneg x)]
  rw [Real.sqrt_inv, Real.sqrt_mul_self hc.le, div_eq_mul_inv]

theorem l2_normalize_idem (x : List ℝ) (h : l2Eps ≤ l2norm x) :
    l2_normalize (l2_normalize x) = l2_normalize x := by
  have hpos : 0 < l2norm x := lt_of_lt_of_le l2Eps_pos h
  have hden : max (l2norm x) l2Eps = l2norm x := max_eq_left h
  have hN : l2_normalize x = x.map (fun v => v / l2norm x) := by
    unfold l2_normalize
    rw [hden]
  have hnorm1 : l2norm (l2_normalize x) = 1 := by
    rw [hN, l2norm_map_div x (l2norm x) hpos, div_self (ne_of_gt hpos)]
  show (l2_normalize x).map _ = l2_normalize x
  rw [hnorm1]
  have hmax1 : max (1 : ℝ) l2Eps = 1 := max_eq_left (by norm_num [l2Eps])
  rw [hmax1]
  simp

theorem dotSum_comm : ∀ a b : List ℝ, dotSum a b = dotSum b a := by
  intro a
  induction a with
  | nil => intro b; cases b <;> rfl
  | cons x xs ih =>
    intro b
    cases b with
    | nil => rfl
    | cons y ys => simp [dotSum, ih ys, mul_comm]

/-- C4: two distinct fresh track ids presented to `assign_identity` from
an empty gallery resolve to the same global person id exactly when the
cosine similarity of their (normalized) embeddings reaches the
threshold: at or above the threshold the second track reuses person 1,
below it a new person 2 is created.  (`l2Eps ≤ ‖e1‖` rules out the
near-zero vectors whose normalization is not idempotent; any real
embedding satisfies it.) -/
theorem c4_threshold_decides_identity
    (thr : ℝ) (hthr : -1 < thr) (t1 t2 : ℕ) (hne : t1 ≠ t2)
    (e1 e2 : List ℝ) (hlen : e1.length = e2.length) (hn1 : l2Eps ≤ l2norm e1) :
    ∃ st1 pid2 st2,
      assignIdentity 0 t1 e1 (initSM thr) = .ok (1, st1) ∧
      assignIdentity 1 t2 e2 st1 = .ok (pid2, st2) ∧
      (thr ≤ dotSum (l2_normalize e1) (l2_normalize e2) → pid2 = 1) ∧
      (dotSum (l2_normalize e1) (l2_normalize e2) < thr → pid2 = 2) := by
  have h1 : assignIdentity 0 t1 e1 (initSM thr) =
      .ok (1, { thr := thr, next_person_id := 2, next_session_num := 1,
                person_embedding := [(1, l2_normalize (l2_normalize e1))],
                track_to_person := [(t1, 1)], sessions := [], person_last_seen := [],
                inactive_timeout := 5 }) := by
    simp [assignIdentity, initSM, createPerson, dictSet, List.lookup]
  set st1 : SessionManager :=
    { thr := thr, next_person_id := 2, next_session_num := 1,
      person_embedding := [(1, l2_normalize (l2_normalize e1))],
      track_to_person := [(t1, 1)], sessions := [], person_last_seen := [],
      inactive_timeout := 5 } with hst1
  set s : ℝ := dotSum (l2_normalize e1) (l2_normalize e2) with hs
  have hlk2 : st1.track_to_person.lookup t2 = none := by
    have hb : (t2 == t1) = false := beq_eq_false_iff_ne.mpr (Ne.symm hne)
    simp [hst1, List.lookup, hb]
  have hn0 : ¬ st1.person_embedding.length = 0 := by simp [hst1]
  have hLen : (l2_normalize e2).length = (l2_normalize (l2_normalize e1)).length := by
    rw [l2_normalize_length, l2_normalize_length, l2_normalize_length, hlen]
  have hdot : cosine_similarity (l2_normalize e2) (l2_normalize (l2_normalize e1)) =
      .ok s := by
    rw [cosine_similarity, npDot, if_pos hLen, l2_normalize_idem e1 hn1, dotSum_comm]
  have hGlen : (l2_normalize (l2_normalize e1)).length =
      (l2_normalize (l2_normalize e2)).length := by
    rw [l2_normalize_length, l2_normalize_length, l2_normalize_length,
      l2_normalize_length, hlen]
  by_cases hth : thr ≤ s
  · have hm1 : (-1 : ℝ) < s := lt_of_lt_of_le hthr hth
    have hbm : bestMatch (l2_normalize e2) st1.person_embedding none (-1) =
        .ok (some 1, s) := by
      show bestMatch (l2_normalize e2) [(1, l2_normalize (l2_normalize e1))] none (-1) = _
      rw [bestMatch, hdot]
      dsimp only
      rw [if_pos hm1]
      rfl
    have hug : ∃ stG, updateGallery 1 (l2_normalize e2) st1 = .ok stG :=
      ⟨_, by
        unfold updateGallery
        rw [show st1.person_embedding.lookup 1 =
          some (l2_normalize (l2_normalize e1)) from rfl]
        dsimp only
        rw [if_pos hGlen]⟩
    obtain ⟨stG, hug⟩ := hug
    have h2 : ∃ st2, assignIdentity 1 t2 e2 st1 = .ok (1, st2) :=
      ⟨_, by
        unfold assignIdentity
        rw [hlk2]
        dsimp only
        rw [if_neg hn0, hbm]
        dsimp only
        rw [if_pos (show st1.thr ≤ s from hth), hug]⟩
    obtain ⟨st2, h2⟩ := h2
    exact ⟨st1, 1, st2, h1, h2, fun _ => rfl, fun hlt => absurd hth (not_le.mpr hlt)⟩
  · by_cases hm1 : (-1 : ℝ) < s
    · have hbm : bestMatch (l2_normalize e2) st1.person_embedding none (-1) =
          .ok (some 1, s) := by
        show bestMatch (l2_normalize e2) [(1, l2_normalize (l2_normalize e1))] none (-1) = _
        rw [bestMatch, hdot]
        dsimp only
        rw [if_pos hm1]
        rfl
      have h2 : ∃ st2, assignIdentity 1 t2 e2 st1 = .ok (2, st2) :=
        ⟨_, by
          unfold assignIdentity
          rw [hlk2]
          dsimp only
          rw [if_neg hn0, hbm]
          dsimp only
          rw [if_neg (show ¬ st1.thr ≤ s from hth)]
          rfl⟩
      obtain ⟨st2, h2⟩ := h2
      exact ⟨st1, 2, st2, h1, h2, fun hge => absurd hge hth,
        fun _ => rfl⟩
    · have hbm : bestMatch (l2_normalize e2) st1.person_embedding none (-1) =
          .ok (none, -1) := by
        show bestMatch (l2_normalize e2) [(1, l2_normalize (l2_normalize e1))] none (-1) = _
        rw [bestMatch, hdot]
        dsimp only
        rw [if_neg hm1]
        rfl
      have h2 : ∃ st2, assignIdentity 1 t2 e2 st1 = .ok (2, st2) :=
        ⟨_, by
          unfold assignIdentity
          rw [hlk2]
          dsimp only
          rw [if_neg hn0, hbm]
          rfl⟩
      obtain ⟨st2, h2⟩ := h2
      refine ⟨st1, 2, st2, h1, h2, fun hge => ?_, fun _ => rfl⟩
      have hs1 : s ≤ -1 := not_lt.mp hm1
      exact absurd (le_trans hge hs1) (not_le.mpr hthr)

/-- Witness for C4 at concrete embeddings `[1, 0]` and `[1, 0]`
(cosine similarity 1, threshold 0.62). -/
theorem c4_witness :
    ∃ st1 pid2 st2,
      assignIdentity 0 1 [1, 0] (initSM (62 / 100)) = .ok (1, st1) ∧
      assignIdentity 1 2 [1, 0] st1 = .ok (pid2, st2) ∧
      ((62 : ℝ) / 100 ≤ dotSum (l2_normalize [1, 0]) (l2_normalize [1, 0]) → pid2 = 1) ∧
      (dotSum (l2_normalize [1, 0]) (l2_normalize [1, 0]) < 62 / 100 → pid2 = 2) :=
  c4_threshold_decides_identity (62 / 100) (by norm_num) 1 2 (by decide) [1, 0] [1, 0]
    rfl
    (by
      have h : l2norm [(1 : ℝ), 0] = 1 := by
        unfold l2norm
        have h1 : (([(1 : ℝ), 0]).map (fun v => v * v)).sum = 1 := by norm_num
        rw [h1, Real.sqrt_one]
      rw [h]
      norm_num [l2Eps])

end CustomerTracker
